import Mathlib

/-!
A shallow embedding of the rlox tree-walking Lox interpreter (Rust), covering
the data model (`object.rs`, `token.rs`, `expr.rs`, `stmt.rs`), the
environment (`environment.rs`), the resolver (`resolver.rs`), the evaluator
(`interpreter.rs`, `function.rs`, `class.rs`, `instance.rs`) and the
parameter/argument loops of the parser (`parser.rs`), together with theorems
about them.

Modelling conventions:
* Rust `f64` numbers are modelled as `ℚ` (exact arithmetic; the claims under
  study only exercise the zero test and the algebraic structure of `/`).
* `Rc<RefCell<...>>` heap values (environments, functions, classes,
  instances) are modelled as indices into explicit heaps inside a `Store`;
  `Rc::ptr_eq` becomes index equality.  Heap cells are only appended, and an
  environment's `enclosing` link always points to an earlier cell, so chain
  walks are given explicit gas bounded by the heap size.
* Rust panics (`panic!("Unreachable error!")`) are modelled as error results
  carrying the panic message.
* Recursion that is unbounded in the source (the evaluator, the resolver,
  the parser loops) is made total with an explicit fuel parameter; running
  out of fuel yields the error string "Out of fuel." and corresponds to a
  non-terminating source run.
-/

/-- Runtime values, from `object.rs` (`enum Object`).  The `function`,
`instance` and `classV` payloads are heap indices standing for the
`Rc<RefCell<dyn ...>>` handles. -/
inductive Object where
  | nil
  | boolean (b : Bool)
  | number (n : ℚ)
  | string (s : String)
  | function (idx : Nat)
  | instance (idx : Nat)
  | classV (idx : Nat)
deriving DecidableEq, Repr

namespace Object

/-- Truthiness, from `object.rs` lines 16-25 (`Object::is_truthy`).  Note the
source makes `Number(0)` and the empty string falsey. -/
def is_truthy : Object → Bool
  | .nil => false
  | .boolean false => false
  | .number n => n != 0
  | .string s => s.length > 0
  | _ => true

/-- Equality, from `object.rs` (`impl PartialEq for Object`): structural for
primitives, `Rc::ptr_eq` (here: heap-index equality) for heap values. -/
def objEq : Object → Object → Bool
  | .nil, .nil => true
  | .boolean a, .boolean b => a == b
  | .number a, .number b => a == b
  | .string a, .string b => a == b
  | .function a, .function b => a == b
  | .instance a, .instance b => a == b
  | .classV a, .classV b => a == b
  | _, _ => false

end Object

/-- Token kinds, from `token.rs` (`enum TokenType`). -/
inductive TokenType where
  | leftParen | rightParen | leftBrace | rightBrace
  | comma | dot | minus | plus | semicolon | slash | star
  | bang | bangEqual | equal | equalEqual
  | greater | greaterEqual | less | lessEqual
  | identifier | stringT | number
  | and | classT | elseT | falseT | funT | forT | ifT | nilT | or
  | print | returnT | superT | this | trueT | var | whileT
  | eof
deriving DecidableEq, Repr

/-- Tokens, from `token.rs` (`struct Token`). -/
structure Token where
  token_type : TokenType
  lexeme : String
  literal : Object
  line : Nat
deriving DecidableEq, Repr

/-- Association-list update-or-append, modelling `HashMap::insert`. -/
def alPut {α : Type} (l : List (String × α)) (k : String) (v : α) : List (String × α) :=
  match l with
  | [] => [(k, v)]
  | (k', v') :: rest => if k' == k then (k, v) :: rest else (k', v') :: alPut rest k v

/-- Association-list lookup, modelling `HashMap::get`. -/
def alGet {α : Type} (l : List (String × α)) (k : String) : Option α :=
  match l with
  | [] => none
  | (k', v') :: rest => if k' == k then some v' else alGet rest k

/-- Association-list membership, modelling `HashMap::contains_key`. -/
def alContains {α : Type} (l : List (String × α)) (k : String) : Bool :=
  match l with
  | [] => false
  | (k', _) :: rest => k' == k || alContains rest k

theorem alGet_alPut {α : Type} (l : List (String × α)) (k : String) (v : α) :
    alGet (alPut l k v) k = some v := by
  induction l with
  | nil => simp [alPut, alGet]
  | cons hd tl ih =>
    obtain ⟨k', v'⟩ := hd
    by_cases h : k' = k
    · simp [alPut, alGet, h]
    · simp only [alPut, alGet, beq_iff_eq, h, if_false, ih]

mutual
/-- Expression wrapper carrying the unique node id, from `expr.rs`
(`struct HashExpr`): the resolver's locals map is keyed by this id. -/
inductive HashExpr where
  | mk (id : Nat) (expr : Expr)
deriving Repr

/-- Expressions.  `expr.rs` in this snapshot lists only the first eight
variants; `get`, `set`, `this` are constructed by `parser.rs` and matched by
`interpreter.rs`/`resolver.rs`, and `superE` is matched by `resolver.rs`
(`Expr::Super`), so the embedding carries all twelve. -/
inductive Expr where
  | literal (value : Object)
  | grouping (expression : HashExpr)
  | unary (op : Token) (right : HashExpr)
  | binary (left : HashExpr) (op : Token) (right : HashExpr)
  | variable (name : Token)
  | assign (name : Token) (value : HashExpr)
  | logical (left : HashExpr) (op : Token) (right : HashExpr)
  | call (callee : HashExpr) (paren : Token) (arguments : List HashExpr)
  | get (object : HashExpr) (name : Token)
  | set (object : HashExpr) (name : Token) (value : HashExpr)
  | this (keyword : Token)
  | superE (keyword : Token) (method : Token)
deriving Repr
end

/-- The id of a `HashExpr` (field access on `HashExpr`). -/
def HashExpr.id : HashExpr → Nat
  | .mk i _ => i

/-- The payload of a `HashExpr` (field access on `HashExpr`). -/
def HashExpr.expr : HashExpr → Expr
  | .mk _ e => e

mutual
/-- Statements, from `stmt.rs` (`enum Stmt`). -/
inductive Stmt where
  | expression (expr : HashExpr)
  | print (expr : HashExpr)
  | var (name : Token) (initializer : Option HashExpr)
  | block (statements : List Stmt)
  | ifS (condition : HashExpr) (then_branch : Stmt) (else_branch : Option Stmt)
  | whileS (condition : HashExpr) (body : Stmt)
  | function (decl : FunctionStmt)
  | returnS (keyword : Token) (value : Option HashExpr)
  | classS (name : Token) (superclass : Option HashExpr) (methods : List FunctionStmt)
deriving Repr

/-- Function declarations, from `stmt.rs` (`struct FunctionStmt`). -/
inductive FunctionStmt where
  | mk (name : Token) (params : List Token) (body : List Stmt)
deriving Repr
end

/-- Name of a function declaration. -/
def FunctionStmt.name : FunctionStmt → Token
  | .mk n _ _ => n

/-- Parameters of a function declaration. -/
def FunctionStmt.params : FunctionStmt → List Token
  | .mk _ p _ => p

/-- Body of a function declaration. -/
def FunctionStmt.body : FunctionStmt → List Stmt
  | .mk _ _ b => b

/-! ## The environment chain of `environment.rs`

`environment.rs` is a self-contained module: an `Environment` is a map of
values plus an optional enclosing environment.  For the claims about
`get_at`/`assign_at` we render the chain functionally: `assign`/`assign_at`
return the updated chain instead of mutating through a `RefCell`.  The
source's `get`/`assign` take a `&Token` and format its line into the error
message; only the lexeme decides the behaviour, so the embedding takes the
name as a `String` and keeps the message text. -/

/-- An environment chain, from `environment.rs` (`struct Environment`):
a `values` map plus an optional `enclosing` frame. -/
inductive Env where
  | mk (values : List (String × Object)) (enclosing : Option Env)

/-- The `values` map of the innermost frame. -/
def Env.values : Env → List (String × Object)
  | .mk vs _ => vs

/-- From `environment.rs` (`Environment::define`): always writes in the
current frame. -/
def Env.define : Env → String → Object → Env
  | .mk vs enc, k, v => .mk (alPut vs k v) enc

/-- From `environment.rs` lines 36-49 (`Environment::get`): read the current
frame, else recurse into the enclosing frame, else `Undefined variable`. -/
def Env.get : Env → String → Except String Object
  | .mk vs none, name =>
    match alGet vs name with
    | some v => .ok v
    | none => .error ("Undefined variable `" ++ name ++ "`.")
  | .mk vs (some parent), name =>
    match alGet vs name with
    | some v => .ok v
    | none => parent.get name

/-- From `environment.rs` lines 51-61 (`Environment::get_at`): walk
`distance` enclosing links, then `get`; a missing enclosing frame is the
source's `panic!("Unreachable error!")`. -/
def Env.get_at : Env → Nat → String → Except String Object
  | e, 0, name => e.get name
  | .mk _ (some parent), d + 1, name => parent.get_at d name
  | .mk _ none, _ + 1, _ => .error "Unreachable error!"

/-- From `environment.rs` lines 63-78 (`Environment::assign`): write in the
first frame (from here outward) that already contains the name, else
`Undefined variable`. -/
def Env.assign : Env → String → Object → Except String Env
  | .mk vs enc, name, v =>
    if alContains vs name then .ok (.mk (alPut vs name v) enc)
    else
      match enc with
      | some parent =>
        match parent.assign name v with
        | .ok parent' => .ok (.mk vs (some parent'))
        | .error m => .error m
      | none => .error ("Undefined variable `" ++ name ++ "`.")

/-- From `environment.rs` lines 80-95 (`Environment::assign_at`): walk
`distance` enclosing links, then `assign`; a missing enclosing frame is the
source's `panic!("Unreachable error!")`. -/
def Env.assign_at : Env → Nat → String → Object → Except String Env
  | e, 0, name, v => e.assign name v
  | .mk vs (some parent), d + 1, name, v =>
    match parent.assign_at d name v with
    | .ok parent' => .ok (.mk vs (some parent'))
    | .error m => .error m
  | .mk _ none, _ + 1, _, _ => .error "Unreachable error!"

/-- The frame `distance` hops up the chain, when the chain is long enough. -/
def Env.frameAt : Env → Nat → Option Env
  | e, 0 => some e
  | .mk _ (some parent), d + 1 => parent.frameAt d
  | .mk _ none, _ + 1 => none

/-! ## Runtime heap values

`function.rs`, `class.rs` and `instance.rs` keep functions, classes and
instances behind `Rc<RefCell<...>>`; the embedding stores them in explicit
heaps inside a `Store` and passes indices around. -/

/-- Runtime function values: the built-in `Clock` (from `function.rs`,
`struct Clock`) or a `Function` (from `function.rs`, `struct Function`:
declaration, captured closure environment, `is_initializer` flag). -/
inductive FnVal where
  | clock
  | decl (declaration : FunctionStmt) (closure : Nat) (is_initializer : Bool)
deriving Repr

/-- A class, from `class.rs` (`struct Class`): name, optional superclass
(heap index), method table, and its own field map (this snapshot lets
classes carry fields). -/
structure ClassV where
  name : Token
  superclass : Option Nat
  methods : List (String × FnVal)
  fields : List (String × Object)
deriving Repr

/-- An instance, from `instance.rs` (`struct Instance`): its class (heap
index) and its field map. -/
structure InstanceV where
  cls : Nat
  fields : List (String × Object)
deriving Repr

/-- One environment frame in the heap, from `environment.rs` as used by the
interpreter: `enclosing` is a heap index. -/
structure EnvFrame where
  enclosing : Option Nat
  values : List (String × Object)
deriving Repr

/-- The heap: environments, functions, classes and instances.  Cells are
only appended, and enclosing/superclass links always point to
previously-created cells. -/
structure Store where
  envs : List EnvFrame
  funs : List FnVal
  classes : List ClassV
  insts : List InstanceV
deriving Repr

/-- Textual rendering of a function, from `function.rs` lines 47-51
(`impl Display for Clock`) and lines 118-122 (`impl Display for Function`). -/
def FnVal.display : FnVal → String
  | .clock => "<builtin-fun clock>"
  | .decl d _ _ => "<fun " ++ d.name.lexeme ++ ">"

/-- Textual rendering of a class, from `class.rs` lines 98-102
(`impl Display for Class`). -/
def ClassV.display (c : ClassV) : String :=
  "<class " ++ c.name.lexeme ++ ">"

/-- Textual rendering of an instance, from `instance.rs` lines 65-69
(`impl Display for Instance`): it prints the lexeme of its class's name.
The class heap index of a live instance is always valid; an out-of-range
index renders the empty name. -/
def displayInstance (s : Store) (i : InstanceV) : String :=
  "<instance of " ++ (match s.classes[i.cls]? with
                      | some c => c.name.lexeme
                      | none => "") ++ ">"

/-- Textual rendering of a value, from `object.rs`
(`impl Display for Object`).  Numeric formatting (Rust's `{}` on an `f64`)
is abstracted by `toString` on `ℚ`. -/
def Object.display (s : Store) : Object → String
  | .nil => "nil"
  | .boolean b => if b then "true" else "false"
  | .number n => toString n
  | .string str => str
  | .function i => match s.funs[i]? with
                   | some f => f.display
                   | none => ""
  | .instance i => match s.insts[i]? with
                   | some iv => displayInstance s iv
                   | none => ""
  | .classV i => match s.classes[i]? with
                 | some c => c.display
                 | none => ""

/-! ## Store-level environment operations

These embed the same `environment.rs` functions, but over heap indices, as
the interpreter uses them (`interpreter.rs` calls them through
`self.environment`/`self.globals`).  The chain walk of `get`/`assign` gets
gas `envs.length + 1`: enclosing links point strictly downward, so the gas
never runs out on a store built by the interpreter. -/

/-- Fresh environment frame, from `environment.rs` (`Environment::new`). -/
def Store.newEnv (s : Store) (enclosing : Option Nat) : Nat × Store :=
  (s.envs.length, { s with envs := s.envs ++ [⟨enclosing, []⟩] })

/-- Write a binding in the frame `i`, from `environment.rs`
(`Environment::define`). -/
def Store.envDefine (s : Store) (i : Nat) (k : String) (v : Object) : Store :=
  { s with envs := s.envs.modify (fun f => { f with values := alPut f.values k v }) i }

/-- Chain-walking read with explicit gas; see `Store.envGet`. -/
def Store.envGetAux (s : Store) : Nat → Nat → String → Except String Object
  | 0, _, _ => .error "Out of fuel."
  | gas + 1, i, name =>
    match s.envs[i]? with
    | none => .error "Unreachable error!"
    | some f =>
      match alGet f.values name with
      | some v => .ok v
      | none =>
        match f.enclosing with
        | some j => s.envGetAux gas j name
        | none => .error ("Undefined variable `" ++ name ++ "`.")

/-- From `environment.rs` lines 36-49 (`Environment::get`), over the heap. -/
def Store.envGet (s : Store) (i : Nat) (name : String) : Except String Object :=
  s.envGetAux (s.envs.length + 1) i name

/-- From `environment.rs` lines 51-61 (`Environment::get_at`), over the
heap: walk `distance` enclosing links, then `envGet`. -/
def Store.envGetAt (s : Store) : Nat → Nat → String → Except String Object
  | 0, i, name => s.envGet i name
  | d + 1, i, name =>
    match s.envs[i]? with
    | none => .error "Unreachable error!"
    | some f =>
      match f.enclosing with
      | some j => s.envGetAt d j name
      | none => .error "Unreachable error!"

/-- Chain-walking assignment with explicit gas; see `Store.envAssign`. -/
def Store.envAssignAux (s : Store) : Nat → Nat → String → Object → Except String Store
  | 0, _, _, _ => .error "Out of fuel."
  | gas + 1, i, name, v =>
    match s.envs[i]? with
    | none => .error "Unreachable error!"
    | some f =>
      if alContains f.values name then .ok (s.envDefine i name v)
      else
        match f.enclosing with
        | some j => s.envAssignAux gas j name v
        | none => .error ("Undefined variable `" ++ name ++ "`.")

/-- From `environment.rs` lines 63-78 (`Environment::assign`), over the
heap.  `interpreter.rs` calls this `set`. -/
def Store.envAssign (s : Store) (i : Nat) (name : String) (v : Object) : Except String Store :=
  s.envAssignAux (s.envs.length + 1) i name v

/-- From `environment.rs` lines 80-95 (`Environment::assign_at`), over the
heap.  `interpreter.rs` calls this `set_at`. -/
def Store.envAssignAt (s : Store) : Nat → Nat → String → Object → Except String Store
  | 0, i, name, v => s.envAssign i name v
  | d + 1, i, name, v =>
    match s.envs[i]? with
    | none => .error "Unreachable error!"
    | some f =>
      match f.enclosing with
      | some j => s.envAssignAt d j name v
      | none => .error "Unreachable error!"

/-! ## Interpreter state and errors -/

/-- From `interpreter.rs` (`enum InterpretError`): a runtime error message,
or the `Return(value)` signal used for non-local exit from a function. -/
inductive InterpretError where
  | error (message : String)
  | ret (value : Object)
deriving Repr

/-- From `interpreter.rs` (`struct Interpreter`): the resolver's locals map
(expression id to scope distance), the globals frame, the current
environment frame, plus the heap and the `print`ed output.  `clockTime`
abstracts the wall clock read by the built-in `clock`. -/
structure InterpState where
  locals : List (Nat × Nat)
  globals : Nat
  environment : Nat
  store : Store
  output : List String
  clockTime : ℚ
deriving Repr

/-- Lookup in the resolver's locals map (`self.locals.borrow().get(...)`). -/
def lookupLocals (l : List (Nat × Nat)) (id : Nat) : Option Nat :=
  match l with
  | [] => none
  | (k, d) :: rest => if k == id then some d else lookupLocals rest id

/-- The result of evaluating an expression: a value or an error, plus the
state after evaluation. -/
abbrev EvalRes := Except InterpretError Object × InterpState

/-- Rust's `?` operator on an evaluation result: propagate errors, feed the
value and the updated state to the continuation. -/
def qmark {α β : Type} (r : Except InterpretError α × InterpState)
    (f : α → InterpState → Except InterpretError β × InterpState) :
    Except InterpretError β × InterpState :=
  match r with
  | (.ok a, st) => f a st
  | (.error e, st) => (.error e, st)

/-- Wrap a plain `Except String` result (from the environment or property
maps) as an interpreter result. -/
def liftErr {α : Type} (st : InterpState) (r : Except String α)
    (f : α → Except InterpretError Object × InterpState) :
    Except InterpretError Object × InterpState :=
  match r with
  | .ok a => f a
  | .error m => (.error (.error m), st)

/-- From `class.rs` lines 106-118 (`Class::find_method`): the method table
of the class itself, else recurse into the superclass chain.  `gas` bounds
the walk; superclass links point strictly downward in the heap, so
`classes.length + 1` gas always suffices on interpreter-built stores. -/
def find_method (s : Store) : Nat → Nat → String → Option FnVal
  | 0, _, _ => none
  | gas + 1, ci, key =>
    match s.classes[ci]? with
    | none => none
    | some c =>
      match alGet c.methods key with
      | some m => some m
      | none =>
        match c.superclass with
        | some sup => find_method s gas sup key
        | none => none

/-- From `function.rs` lines 102-115 (`Function::bind`), for a declared
function: a fresh environment enclosing the closure, defining `this` as the
instance, wrapped in a new function value.  Returns the new function's heap
index and the grown store. -/
def fnBindDecl (s : Store) (d : FunctionStmt) (closure : Nat) (isInit : Bool)
    (inst : Nat) : Nat × Store :=
  let (ei, s1) := s.newEnv (some closure)
  let s2 := s1.envDefine ei "this" (.instance inst)
  (s2.funs.length, { s2 with funs := s2.funs ++ [.decl d ei isInit] })

/-- From `function.rs` lines 20-25 and 102-115 (`IsFunction::bind`): the
default trait implementation (hit for `Clock`) is
`Err("Unreachable error!")`; `Function` overrides it with `fnBindDecl`. -/
def fnBind (s : Store) (f : FnVal) (inst : Nat) : Except String (Nat × Store) :=
  match f with
  | .clock => .error "Unreachable error!"
  | .decl d c i => .ok (fnBindDecl s d c i inst)

/-- Arity, from `function.rs` (`Clock::arity`, `Function::arity`). -/
def FnVal.arity : FnVal → Nat
  | .clock => 0
  | .decl d _ _ => d.params.length

/-- Arity of a class, from `class.rs` lines 54-60 (`Class::arity` via
`IsFunction`): the arity of `init` when present, else 0. -/
def classArity (s : Store) (ci : Nat) : Nat :=
  match find_method s (s.classes.length + 1) ci "init" with
  | some init => init.arity
  | none => 0

/-- Property read on an instance, from `instance.rs` lines 43-57
(`Instance::get` via `Stateful`): fields first, then a method found on the
class (walking the superclass chain) bound to the instance, else
`Undefined property`. -/
def instanceGet (s : Store) (ii : Nat) (key : String) : Except String (Object × Store) :=
  match s.insts[ii]? with
  | none => .error "Unreachable error!"
  | some iv =>
    match alGet iv.fields key with
    | some v => .ok (v, s)
    | none =>
      match find_method s (s.classes.length + 1) iv.cls key with
      | some m =>
        match fnBind s m ii with
        | .ok (fi, s') => .ok (.function fi, s')
        | .error e => .error e
      | none => .error ("Undefined property `" ++ key ++ "`.")

/-- Field write on an instance, from `instance.rs` lines 59-62
(`Instance::set`). -/
def instanceSet (s : Store) (ii : Nat) (key : String) (v : Object) : Except String Store :=
  match s.insts[ii]? with
  | none => .error "Unreachable error!"
  | some _ =>
    .ok { s with insts := s.insts.modify (fun i => { i with fields := alPut i.fields key v }) ii }

/-- Property read on a class, from `class.rs` lines 81-90 (`Class::get` via
`Stateful`): its own field map only, else `Undefined property`. -/
def classGet (s : Store) (ci : Nat) (key : String) : Except String Object :=
  match s.classes[ci]? with
  | none => .error "Unreachable error!"
  | some c =>
    match alGet c.fields key with
    | some v => .ok v
    | none => .error ("Undefined property `" ++ key ++ "`.")

/-- Field write on a class, from `class.rs` lines 92-95 (`Class::set`). -/
def classSet (s : Store) (ci : Nat) (key : String) (v : Object) : Except String Store :=
  match s.classes[ci]? with
  | none => .error "Unreachable error!"
  | some _ =>
    .ok { s with classes := s.classes.modify (fun c => { c with fields := alPut c.fields key v }) ci }

/-- Lookup of a variable reference, from `interpreter.rs` lines 66-78
(`Interpreter::lookup_variable`): resolver distance when recorded, else the
globals frame. -/
def lookup_variable (st : InterpState) (name : Token) (id : Nat) :
    Except String Object :=
  match lookupLocals st.locals id with
  | some distance => st.store.envGetAt distance st.environment name.lexeme
  | none => st.store.envGet st.globals name.lexeme

/-- Modelled from the spec: evaluation of a `super.method` expression, which
`interpreter.rs` in this snapshot does not implement (its `visit_expr` has
no `Expr::Super` arm; only `resolver.rs` and `class.rs` carry the `super`
machinery).  Per §4.4 of the spec: "look up `super` class at `distance`,
look up `this` at `distance-1`, find method on the superclass (walking
chain), return bound to `this`; method missing → error *Undefined
property*."  The method walk is `class.rs`'s `find_method` and the binding
is `function.rs`'s `bind`.  The spec leaves the impossible shapes (no
recorded distance, non-class `super`, non-instance `this`) unspecified;
they are modelled as runtime errors. -/
def visitSuper (st : InterpState) (id : Nat) (method : Token) : EvalRes :=
  match lookupLocals st.locals id with
  | none => (.error (.error "Unreachable error!"), st)
  | some distance =>
    match st.store.envGetAt distance st.environment "super" with
    | .error m => (.error (.error m), st)
    | .ok (Object.classV sup) =>
      match st.store.envGetAt (distance - 1) st.environment "this" with
      | .error m => (.error (.error m), st)
      | .ok (Object.instance inst) =>
        match find_method st.store (st.store.classes.length + 1) sup method.lexeme with
        | some m =>
          match fnBind st.store m inst with
          | .ok (fi, s') => (.ok (.function fi), { st with store := s' })
          | .error e => (.error (.error e), st)
        | none =>
          (.error (.error ("Undefined property `" ++ method.lexeme ++ "`.")), st)
      | .ok _ => (.error (.error "Unreachable error!"), st)
    | .ok _ => (.error (.error "Unreachable error!"), st)

/-! ## The evaluator (`interpreter.rs`, `function.rs`, `class.rs`)

The runtime error strings in `interpreter.rs` are
`format!("[line {}] <{:?}> : {}", op.line, op, msg)`; the embedding keeps
the line number and the message and abstracts the token debug dump. -/

/-- A runtime error message tagged with the offending token's line. -/
def errAt (t : Token) (msg : String) : String :=
  "[line " ++ toString t.line ++ "] : " ++ msg

/-- Unary operators, from `interpreter.rs` lines 123-137 (`Expr::Unary`):
`-` requires a number, `!` negates truthiness, anything else is the
source's `panic!("Unreachable error!")`. -/
def evalUnaryOp (op : Token) (right : Object) : Except String Object :=
  match op.token_type with
  | .minus =>
    match right with
    | .number n => .ok (.number (-n))
    | _ => .error (errAt op "Operator must be a number.")
  | .bang => .ok (.boolean (!right.is_truthy))
  | _ => .error "Unreachable error!"

/-- Binary operators, from `interpreter.rs` lines 138-211 (`Expr::Binary`),
on the already-evaluated operands.  `/` checks the divisor against `0.0`
before dividing. -/
def evalBinaryOp (op : Token) (l r : Object) : Except String Object :=
  match op.token_type with
  | .minus =>
    match l, r with
    | .number a, .number b => .ok (.number (a - b))
    | _, _ => .error (errAt op "Operators must be two numbers.")
  | .plus =>
    match l, r with
    | .number a, .number b => .ok (.number (a + b))
    | .string a, .string b => .ok (.string (a ++ b))
    | _, _ => .error (errAt op "Operators must be two numbers or strings.")
  | .slash =>
    match l, r with
    | .number a, .number b =>
      if b = 0 then .error (errAt op "Division by zero.")
      else .ok (.number (a / b))
    | _, _ => .error (errAt op "Operators must be two numbers.")
  | .star =>
    match l, r with
    | .number a, .number b => .ok (.number (a * b))
    | _, _ => .error (errAt op "Operators must be two numbers.")
  | .greater =>
    match l, r with
    | .number a, .number b => .ok (.boolean (decide (a > b)))
    | _, _ => .error (errAt op "Operators must be two numbers.")
  | .greaterEqual =>
    match l, r with
    | .number a, .number b => .ok (.boolean (decide (a ≥ b)))
    | _, _ => .error (errAt op "Operators must be two numbers.")
  | .less =>
    match l, r with
    | .number a, .number b => .ok (.boolean (decide (a < b)))
    | _, _ => .error (errAt op "Operators must be two numbers.")
  | .lessEqual =>
    match l, r with
    | .number a, .number b => .ok (.boolean (decide (a ≤ b)))
    | _, _ => .error (errAt op "Operators must be two numbers.")
  | .bangEqual => .ok (.boolean (!(Object.objEq l r)))
  | .equalEqual => .ok (.boolean (Object.objEq l r))
  | _ => .error "Unreachable error!"

/-- The method table built by `Stmt::Class` execution, from
`interpreter.rs` lines 370-379: each method becomes a `Function` closing
over the current environment, `is_initializer` when named `init`. -/
def buildMethods (env : Nat) (ms : List FunctionStmt) : List (String × FnVal) :=
  ms.foldl (fun acc m => alPut acc m.name.lexeme (.decl m env (m.name.lexeme == "init"))) []

/-- Parameter binding of a call, from `function.rs` lines 84-91
(`Function::call`): define each parameter to the corresponding argument in
the fresh environment.  The source indexes both vectors after the caller's
arity check; the zip is equivalent under that check. -/
def bindParams (s : Store) (ei : Nat) (ps : List Token) (args : List Object) : Store :=
  (ps.zip args).foldl (fun s pa => s.envDefine ei pa.1.lexeme pa.2) s

mutual
/-- Expression evaluation, from `interpreter.rs` lines 119-311
(`Interpreter::visit_expr`).  The `Expr::Super` arm is absent from this
snapshot's `visit_expr` and is supplied by the spec-modelled
`visitSuper`. -/
def visitExpr : Nat → InterpState → HashExpr → EvalRes
  | 0, st, _ => (.error (.error "Out of fuel."), st)
  | fuel + 1, st, .mk id e =>
    match e with
    | .literal v => (.ok v, st)
    | .grouping inner => visitExpr fuel st inner
    | .unary op right =>
      qmark (visitExpr fuel st right) fun r st1 =>
        liftErr st1 (evalUnaryOp op r) fun v => (.ok v, st1)
    | .binary l op r =>
      qmark (visitExpr fuel st l) fun lv st1 =>
        qmark (visitExpr fuel st1 r) fun rv st2 =>
          liftErr st2 (evalBinaryOp op lv rv) fun v => (.ok v, st2)
    | .variable name =>
      liftErr st (lookup_variable st name id) fun v => (.ok v, st)
    | .assign name value =>
      qmark (visitExpr fuel st value) fun v st1 =>
        match lookupLocals st1.locals id with
        | some distance =>
          match st1.store.envAssignAt distance st1.environment name.lexeme v with
          | .ok s' => (.ok .nil, { st1 with store := s' })
          | .error m => (.error (.error m), st1)
        | none =>
          match st1.store.envAssign st1.globals name.lexeme v with
          | .ok s' => (.ok .nil, { st1 with store := s' })
          | .error m => (.error (.error m), st1)
    | .logical l op r =>
      qmark (visitExpr fuel st l) fun lv st1 =>
        match op.token_type with
        | .or => if lv.is_truthy then (.ok lv, st1) else visitExpr fuel st1 r
        | .and => if !lv.is_truthy then (.ok lv, st1) else visitExpr fuel st1 r
        | _ => (.error (.error "Unreachable error!"), st1)
    | .call callee paren args =>
      qmark (visitExpr fuel st callee) fun cv st1 =>
        qmark (evalArgs fuel st1 args) fun argv st2 =>
          match cv with
          | .function fi =>
            match st2.store.funs[fi]? with
            | none => (.error (.error "Unreachable error!"), st2)
            | some f =>
              if argv.length ≠ f.arity then
                (.error (.error (errAt paren ("Expected " ++ toString f.arity ++
                  " arguments but got " ++ toString argv.length ++ "."))), st2)
              else fnCall fuel st2 f argv
          | .classV ci =>
            if argv.length ≠ classArity st2.store ci then
              (.error (.error (errAt paren ("Expected " ++ toString (classArity st2.store ci) ++
                " arguments but got " ++ toString argv.length ++ "."))), st2)
            else classCall fuel st2 ci argv
          | _ => (.error (.error (errAt paren "Can only call functions and classes.")), st2)
    | .get obj name =>
      qmark (visitExpr fuel st obj) fun ov st1 =>
        match ov with
        | .instance ii =>
          match instanceGet st1.store ii name.lexeme with
          | .ok (v, s') => (.ok v, { st1 with store := s' })
          | .error m => (.error (.error m), st1)
        | .classV ci =>
          liftErr st1 (classGet st1.store ci name.lexeme) fun v => (.ok v, st1)
        | _ => (.error (.error (errAt name "Only instances have properties.")), st1)
    | .set obj name value =>
      qmark (visitExpr fuel st obj) fun ov st1 =>
        match ov with
        | .instance ii =>
          qmark (visitExpr fuel st1 value) fun v st2 =>
            match instanceSet st2.store ii name.lexeme v with
            | .ok s' => (.ok .nil, { st2 with store := s' })
            | .error m => (.error (.error m), st2)
        | .classV ci =>
          qmark (visitExpr fuel st1 value) fun v st2 =>
            match classSet st2.store ci name.lexeme v with
            | .ok s' => (.ok .nil, { st2 with store := s' })
            | .error m => (.error (.error m), st2)
        | _ => (.error (.error (errAt name "Only instances have fields.")), st1)
    | .this keyword =>
      liftErr st (lookup_variable st keyword id) fun v => (.ok v, st)
    | .superE _ method => visitSuper st id method

/-- Left-to-right argument evaluation, from `interpreter.rs` lines 249-252
(the argument loop of `Expr::Call`). -/
def evalArgs : Nat → InterpState → List HashExpr →
    Except InterpretError (List Object) × InterpState
  | 0, st, _ => (.error (.error "Out of fuel."), st)
  | fuel + 1, st, es =>
    match es with
    | [] => (.ok [], st)
    | e :: rest =>
      qmark (visitExpr fuel st e) fun v st1 =>
        qmark (evalArgs fuel st1 rest) fun vs st2 => (.ok (v :: vs), st2)

/-- Statement execution, from `interpreter.rs` lines 312-387
(`Interpreter::visit_stmt`).  `Stmt::Class` builds the class without a
superclass, exactly as this snapshot's interpreter does (its class
construction passes no superclass). -/
def visitStmt : Nat → InterpState → Stmt → Except InterpretError Unit × InterpState
  | 0, st, _ => (.error (.error "Out of fuel."), st)
  | fuel + 1, st, s =>
    match s with
    | .expression e =>
      qmark (visitExpr fuel st e) fun _ st1 => (.ok (), st1)
    | .print e =>
      qmark (visitExpr fuel st e) fun v st1 =>
        (.ok (), { st1 with output := st1.output ++ [v.display st1.store] })
    | .var name init =>
      match init with
      | some i =>
        qmark (visitExpr fuel st i) fun v st1 =>
          (.ok (), { st1 with store := st1.store.envDefine st1.environment name.lexeme v })
      | none =>
        (.ok (), { st with store := st.store.envDefine st.environment name.lexeme .nil })
    | .block ss =>
      let (ei, s') := st.store.newEnv (some st.environment)
      qmark (execute_block fuel { st with store := s' } ss ei) fun _ st1 => (.ok (), st1)
    | .ifS c t e =>
      qmark (visitExpr fuel st c) fun cv st1 =>
        if cv.is_truthy then visitStmt fuel st1 t
        else
          match e with
          | some el => visitStmt fuel st1 el
          | none => (.ok (), st1)
    | .whileS c body =>
      qmark (visitExpr fuel st c) fun cv st1 =>
        if cv.is_truthy then
          qmark (visitStmt fuel st1 body) fun _ st2 => visitStmt fuel st2 (.whileS c body)
        else (.ok (), st1)
    | .function d =>
      let fi := st.store.funs.length
      let s1 := { st.store with funs := st.store.funs ++ [FnVal.decl d st.environment false] }
      (.ok (), { st with store := s1.envDefine st.environment d.name.lexeme (.function fi) })
    | .returnS _ value =>
      match value with
      | some e => qmark (visitExpr fuel st e) fun v st1 => (.error (.ret v), st1)
      | none => (.error (.ret .nil), st)
    | .classS name _ methods =>
      let ci := st.store.classes.length
      let s1 := { st.store with
                  classes := st.store.classes ++
                    [ClassV.mk name none (buildMethods st.environment methods) []] }
      (.ok (), { st with store := s1.envDefine st.environment name.lexeme (.classV ci) })

/-- The statement loop of `execute_block` (`interpreter.rs` lines 96-112):
run statements in order, stopping at the first error. -/
def execStmts : Nat → InterpState → List Stmt → Except InterpretError Unit × InterpState
  | 0, st, _ => (.error (.error "Out of fuel."), st)
  | fuel + 1, st, ss =>
    match ss with
    | [] => (.ok (), st)
    | s :: rest =>
      match visitStmt fuel st s with
      | (.ok _, st1) => execStmts fuel st1 rest
      | (.error e, st1) => (.error e, st1)

/-- From `interpreter.rs` lines 89-116 (`Interpreter::execute_block`): swap
in the given environment, run the statements, and restore the previous
environment on every exit path — a `Return` signal becomes `Ok(value)`, a
runtime error is re-raised, normal completion yields `Ok(Nil)`. -/
def execute_block : Nat → InterpState → List Stmt → Nat → EvalRes
  | 0, st, _, _ => (.error (.error "Out of fuel."), st)
  | fuel + 1, st, statements, environment =>
    let previous := st.environment
    match execStmts fuel { st with environment := environment } statements with
    | (.error (.ret value), st1) => (.ok value, { st1 with environment := previous })
    | (.error (.error message), st1) =>
      (.error (.error message), { st1 with environment := previous })
    | (.ok _, st1) => (.ok .nil, { st1 with environment := previous })

/-- Function invocation, from `function.rs` lines 37-45 (`Clock::call`) and
lines 79-100 (`Function::call`): fresh environment over the closure, bind
parameters, run the body as a block; an initializer returns the closure's
`this` instead of the block's value. -/
def fnCall : Nat → InterpState → FnVal → List Object → EvalRes
  | 0, st, _, _ => (.error (.error "Out of fuel."), st)
  | fuel + 1, st, f, args =>
    match f with
    | .clock => (.ok (.number st.clockTime), st)
    | .decl d closure isInit =>
      let (ei, s1) := st.store.newEnv (some closure)
      let s2 := bindParams s1 ei d.params args
      qmark (execute_block fuel { st with store := s2 } d.body ei) fun value st1 =>
        if isInit then
          liftErr st1 (st1.store.envGet closure "this") fun t => (.ok t, st1)
        else (.ok value, st1)

/-- Class invocation (construction), from `class.rs` lines 62-77
(`Class::call`): create an instance; when an `init` method exists, bind it
to the instance and call it, discarding its result; the call evaluates to
the instance. -/
def classCall : Nat → InterpState → Nat → List Object → EvalRes
  | 0, st, _, _ => (.error (.error "Out of fuel."), st)
  | fuel + 1, st, ci, args =>
    let ii := st.store.insts.length
    let s1 := { st.store with insts := st.store.insts ++ [⟨ci, []⟩] }
    match find_method s1 (s1.classes.length + 1) ci "init" with
    | none => (.ok (.instance ii), { st with store := s1 })
    | some init =>
      match fnBind s1 init ii with
      | .error m => (.error (.error m), { st with store := s1 })
      | .ok (fi, s2) =>
        match s2.funs[fi]? with
        | none => (.error (.error "Unreachable error!"), { st with store := s2 })
        | some bf =>
          qmark (fnCall fuel { st with store := s2 } bf args) fun _ st1 =>
            (.ok (.instance ii), st1)
end

/-! ## The resolver (`resolver.rs`) -/

/-- From `resolver.rs` (`enum FunctionType`). -/
inductive FunctionType where
  | noneF | functionF | methodF | initializerF
deriving DecidableEq, Repr

/-- From `resolver.rs` (`enum ClassType`). -/
inductive ClassType where
  | noneC | classC | subclassC
deriving DecidableEq, Repr

/-- From `resolver.rs` (`struct Resolver`): the scope stack (innermost
frame first; the source's `Vec` pushes and pops at the other end, so its
backwards scan of `resolve_local` becomes a head-first scan here), the
locals map from expression id to distance, and the two context trackers. -/
structure RState where
  scopes : List (List (String × Bool))
  locals : List (Nat × Nat)
  current_function : FunctionType
  current_class : ClassType
deriving Repr

/-- Nat-keyed map insert, for the locals map (`HashMap<HashExpr, usize>`
keyed by node id). -/
def nlPut (l : List (Nat × Nat)) (k : Nat) (v : Nat) : List (Nat × Nat) :=
  match l with
  | [] => [(k, v)]
  | (k', v') :: rest => if k' == k then (k, v) :: rest else (k', v') :: nlPut rest k v

/-- From `resolver.rs` (`Resolver::begin_scope`). -/
def beginScope (st : RState) : RState :=
  { st with scopes := [] :: st.scopes }

/-- From `resolver.rs` (`Resolver::end_scope`). -/
def endScope (st : RState) : RState :=
  { st with scopes := st.scopes.tail }

/-- From `resolver.rs` lines 54-65 (`Resolver::resolve_local`): find the
innermost scope holding the name; its depth from the top is the recorded
distance (`len - 1 - i` over the source's bottom-first `Vec` equals the
index in our innermost-first list). -/
def resolveLocal (st : RState) (id : Nat) (name : String) : RState :=
  match st.scopes.findIdx? (fun sc => alContains sc name) with
  | some i => { st with locals := nlPut st.locals id i }
  | none => st

/-- From `resolver.rs` lines 101-114 (`Resolver::declare`): error on
re-declaration in the same scope, else mark the name as declared-not-yet
-defined.  An empty scope stack (global scope) declares nothing. -/
def declare (st : RState) (name : Token) : Except String RState :=
  match st.scopes with
  | [] => .ok st
  | sc :: rest =>
    if alContains sc name.lexeme then
      .error (errAt name "Already a variable with this name in this scope.")
    else .ok { st with scopes := alPut sc name.lexeme false :: rest }

/-- From `resolver.rs` lines 116-122 (`Resolver::define`): mark the name as
defined in the innermost scope.  The source returns `Result` but never an
error. -/
def defineR (st : RState) (name : String) : RState :=
  match st.scopes with
  | [] => st
  | sc :: rest => { st with scopes := alPut sc name true :: rest }

mutual
/-- From `resolver.rs` lines 126-203 (`Resolver::visit_expr`). -/
def resolveExpr : Nat → RState → HashExpr → Except String RState
  | 0, _, _ => .error "Out of fuel."
  | fuel + 1, st, .mk id e =>
    match e with
    | .unary _ right => resolveExpr fuel st right
    | .logical l _ r => do
      let st1 ← resolveExpr fuel st l
      resolveExpr fuel st1 r
    | .literal _ => .ok st
    | .grouping inner => resolveExpr fuel st inner
    | .call callee _ args => do
      let st1 ← resolveExpr fuel st callee
      resolveExprs fuel st1 args
    | .binary l _ r => do
      let st1 ← resolveExpr fuel st l
      resolveExpr fuel st1 r
    | .assign name value => do
      let st1 ← resolveExpr fuel st value
      .ok (resolveLocal st1 id name.lexeme)
    | .variable name =>
      match st.scopes with
      | sc :: _ =>
        if alGet sc name.lexeme == some false then
          .error (errAt name "Can't read local variable in its own initializer.")
        else .ok (resolveLocal st id name.lexeme)
      | [] => .ok (resolveLocal st id name.lexeme)
    | .get obj _ => resolveExpr fuel st obj
    | .set obj _ value => do
      let st1 ← resolveExpr fuel st value
      resolveExpr fuel st1 obj
    | .this keyword =>
      if st.current_class == .noneC then
        .error (errAt keyword "Can't use 'this' outside of a class.")
      else .ok (resolveLocal st id keyword.lexeme)
    | .superE keyword _ =>
      if st.current_class == .noneC then
        .error (errAt keyword "Can't use 'super' outside of a class.")
      else if st.current_class != .subclassC then
        .error (errAt keyword "Can't use 'super' in a class with no superclass.")
      else .ok (resolveLocal st id keyword.lexeme)

/-- The argument loop of the resolver's `Expr::Call` arm. -/
def resolveExprs : Nat → RState → List HashExpr → Except String RState
  | 0, _, _ => .error "Out of fuel."
  | fuel + 1, st, es =>
    match es with
    | [] => .ok st
    | e :: rest => do
      let st1 ← resolveExpr fuel st e
      resolveExprs fuel st1 rest

/-- From `resolver.rs` lines 205-320 (`Resolver::visit_stmt`). -/
def resolveStmt : Nat → RState → Stmt → Except String RState
  | 0, _, _ => .error "Out of fuel."
  | fuel + 1, st, s =>
    match s with
    | .whileS c body => do
      let st1 ← resolveExpr fuel st c
      resolveStmt fuel st1 body
    | .returnS keyword value =>
      if st.current_function == .noneF then
        .error (errAt keyword "Can't return from top-level code.")
      else
        match value with
        | some he =>
          match he.expr with
          | .this _ => resolveExpr fuel st he
          | _ =>
            if st.current_function == .initializerF then
              .error (errAt keyword "Can't return a value from an initializer.")
            else resolveExpr fuel st he
        | none => .ok st
    | .expression e => resolveExpr fuel st e
    | .print e => resolveExpr fuel st e
    | .ifS c t e => do
      let st1 ← resolveExpr fuel st c
      let st2 ← resolveStmt fuel st1 t
      match e with
      | some el => resolveStmt fuel st2 el
      | none => .ok st2
    | .function d => do
      let st1 ← declare st d.name
      let st2 := defineR st1 d.name.lexeme
      resolveFun fuel st2 d .functionF
    | .var name init => do
      let st1 ← declare st name
      let st2 ←
        match init with
        | some i => resolveExpr fuel st1 i
        | none => .ok st1
      .ok (defineR st2 name.lexeme)
    | .block ss => do
      let st1 ← resolveStmts fuel (beginScope st) ss
      .ok (endScope st1)
    | .classS name superclass methods => do
      let enclosing_class := st.current_class
      let st ← declare { st with current_class := .classC } name
      let st ←
        match superclass with
        | some he => do
          let ok ←
            match he.expr with
            | .variable sn =>
              if sn.lexeme == name.lexeme then
                .error (errAt name "A class can't inherit from itself.")
              else .ok ()
            | _ => .ok ()
          let _ := ok
          let st1 ← resolveExpr fuel { st with current_class := .subclassC } he
          let st2 := beginScope st1
          .ok (defineR st2 "super")
        | none => .ok st
      let st := beginScope st
      let st := defineR st "this"
      let st ← resolveMethods fuel st methods
      let st := endScope st
      let st :=
        match superclass with
        | some _ => endScope st
        | none => st
      let st := defineR st name.lexeme
      .ok { st with current_class := enclosing_class }

/-- The statement loop of `Resolver::resolve` and `Stmt::Block`. -/
def resolveStmts : Nat → RState → List Stmt → Except String RState
  | 0, _, _ => .error "Out of fuel."
  | fuel + 1, st, ss =>
    match ss with
    | [] => .ok st
    | s :: rest => do
      let st1 ← resolveStmt fuel st s
      resolveStmts fuel st1 rest

/-- The method loop of the resolver's `Stmt::Class` arm (`resolver.rs`
lines 299-307): each method is resolved as `Method`, or `Initializer` when
named `init`. -/
def resolveMethods : Nat → RState → List FunctionStmt → Except String RState
  | 0, _, _ => .error "Out of fuel."
  | fuel + 1, st, ms =>
    match ms with
    | [] => .ok st
    | m :: rest => do
      let ty := if m.name.lexeme == "init" then FunctionType.initializerF
                else FunctionType.methodF
      let st1 ← resolveFun fuel st m ty
      resolveMethods fuel st1 rest

/-- From `resolver.rs` lines 67-87 (`Resolver::resolve_fun`): switch the
function context, open a scope, declare and define the parameters, resolve
the body, close the scope, restore the context. -/
def resolveFun : Nat → RState → FunctionStmt → FunctionType → Except String RState
  | 0, _, _, _ => .error "Out of fuel."
  | fuel + 1, st, d, ty => do
    let enclosing_function := st.current_function
    let st := { st with current_function := ty }
    let st ← resolveParams fuel (beginScope st) d.params
    let st1 ← resolveStmts fuel st d.body
    let st2 := endScope st1
    .ok { st2 with current_function := enclosing_function }

/-- The parameter loop of `resolve_fun`: declare and define each one. -/
def resolveParams : Nat → RState → List Token → Except String RState
  | 0, _, _ => .error "Out of fuel."
  | fuel + 1, st, ps =>
    match ps with
    | [] => .ok st
    | p :: rest => do
      let st1 ← declare st p
      resolveParams fuel (defineR st1 p.lexeme) rest
end

/-- From `resolver.rs` lines 43-52 (`Resolver::resolve`) together with
`Resolver::new`: starting from the fresh resolver state, open the top
scope, resolve every statement (the source panics on the first error; here
the error is returned), close the scope. -/
def resolveProgram (fuel : Nat) (statements : List Stmt) : Except String RState := do
  let st ← resolveStmts fuel (beginScope ⟨[], [], .noneF, .noneC⟩) statements
  .ok (endScope st)

/-! ## The top-level driver (`interpreter.rs::interpret`) -/

/-- Outcome of `interpret` (`interpreter.rs` lines 13-30): the resolver
panic (inside `Resolver::resolve`), the driver's panic on a runtime error,
the driver's `panic!("Unreachable error!")` on an escaped `Return` signal,
or normal completion. -/
inductive DriverOutcome where
  | done
  | errPanic (message : String)
  | retPanic
  | resolvePanic (message : String)
deriving DecidableEq, Repr

/-- From `interpreter.rs` lines 48-64 (`Interpreter::new`): a globals
environment holding the built-in `clock`, used as the initial current
environment. -/
def initState (locals : List (Nat × Nat)) (clockTime : ℚ) : InterpState :=
  { locals := locals
    globals := 0
    environment := 0
    store := { envs := [⟨none, [("clock", Object.function 0)]⟩]
               funs := [.clock], classes := [], insts := [] }
    output := []
    clockTime := clockTime }

/-- The statement loop of `interpret` (`interpreter.rs` lines 21-29): run
each statement; a runtime error panics with its message, an escaped
`Return` signal hits the `panic!("Unreachable error!")` branch. -/
def driverLoop (fuel : Nat) (st : InterpState) : List Stmt → DriverOutcome
  | [] => .done
  | s :: rest =>
    match visitStmt fuel st s with
    | (.ok _, st1) => driverLoop fuel st1 rest
    | (.error (.ret _), _) => .retPanic
    | (.error (.error message), _) => .errPanic message

/-- From `interpreter.rs` lines 13-30 (`interpret`): resolve (panicking on
a resolution error), then execute every statement with the resolver's
locals map.  `rfuel` fuels the resolver, `fuel` the evaluator; `clockTime`
abstracts the wall clock. -/
def interpret (rfuel fuel : Nat) (clockTime : ℚ) (statements : List Stmt) : DriverOutcome :=
  match resolveProgram rfuel statements with
  | .error m => .resolvePanic m
  | .ok rst => driverLoop fuel (initState rst.locals clockTime) statements

/-! ## The parser's parameter and argument loops (`parser.rs`)

Only the two counting loops cited by the claims are embedded.  The token
cursor (`struct Parser { tokens, current }`) and its primitive moves are
rendered faithfully; `finish_call`'s `self.expression()?` recursion is
abstracted as an opaque sub-parser argument. -/

/-- The parser cursor, from `parser.rs` (`struct Parser`). -/
structure ParserSt where
  tokens : List Token
  current : Nat
deriving Repr

/-- From `parser.rs` (`Parser::PARAM_MAX_COUNT`). -/
def PARAM_MAX_COUNT : Nat := 255

/-- From `parser.rs` (`Parser::peek` via `peek_at`). -/
def ParserSt.peek (p : ParserSt) : Option Token :=
  p.tokens[p.current]?

/-- From `parser.rs` (`Parser::is_at_end`). -/
def ParserSt.is_at_end (p : ParserSt) : Bool :=
  match p.peek with
  | none => true
  | some t => t.token_type == .eof

/-- From `parser.rs` (`Parser::previous`); the source unwraps, so an
out-of-range access yields a dummy token standing for the panic. -/
def ParserSt.previous (p : ParserSt) : Token :=
  match p.tokens[p.current - 1]? with
  | some t => t
  | none => ⟨.eof, "", .nil, 0⟩

/-- From `parser.rs` (`Parser::advance`). -/
def ParserSt.advance (p : ParserSt) : Token × ParserSt :=
  let p' := if p.is_at_end then p else { p with current := p.current + 1 }
  (p'.previous, p')

/-- From `parser.rs` (`Parser::check`). -/
def ParserSt.check (p : ParserSt) (tt : TokenType) : Bool :=
  match p.peek with
  | none => false
  | some t => t.token_type == tt

/-- From `parser.rs` (`Parser::find`) specialised to a single wanted kind,
the only way the embedded loops use it. -/
def ParserSt.find (p : ParserSt) (tt : TokenType) : Bool × ParserSt :=
  if p.check tt then (true, (p.advance).2) else (false, p)

/-- From `parser.rs` (`Parser::consume`). -/
def ParserSt.consume (p : ParserSt) (tt : TokenType) (message : String) :
    Except String (Token × ParserSt) :=
  if p.check tt then .ok (p.advance)
  else
    match p.peek with
    | some t => .error (errAt t message)
    | none => .error message

/-- The parameter loop of `Parser::function`, from `parser.rs` lines
111-126: refuse when the already-collected parameters number *more than*
`PARAM_MAX_COUNT` (note `>`, not `>=`; the message still says 255, and
`finish_call` uses `>=`), else consume a parameter name, and continue while
a comma follows. -/
def paramLoop : Nat → ParserSt → List Token → Except String (List Token × ParserSt)
  | 0, _, _ => .error "Out of fuel."
  | fuel + 1, p, parameters =>
    if parameters.length > PARAM_MAX_COUNT then
      .error (errAt p.previous "Can't have more than 255 arguments.")
    else
      match p.consume .identifier "Expect parameter name." with
      | .error e => .error e
      | .ok (tok, p1) =>
        match p1.find .comma with
        | (true, p2) => paramLoop fuel p2 (parameters ++ [tok])
        | (false, p2) => .ok (parameters ++ [tok], p2)

/-- The parameter list of a function declaration, from `parser.rs` lines
111-126 (`Parser::function`, between the `(` and `)` consumes): empty when
`)` is next, else the `paramLoop`. -/
def functionParams (fuel : Nat) (p : ParserSt) : Except String (List Token × ParserSt) :=
  if p.check .rightParen then .ok ([], p)
  else paramLoop fuel p []

/-- The argument loop of `Parser::finish_call`, from `parser.rs` lines
452-469: refuse when the already-collected arguments number `>=`
`PARAM_MAX_COUNT`, else parse one expression via the given sub-parser, and
continue while a comma follows. -/
def argLoop (expressionP : ParserSt → Except String ParserSt) :
    Nat → ParserSt → Nat → Except String (Nat × ParserSt)
  | 0, _, _ => .error "Out of fuel."
  | fuel + 1, p, count =>
    if count ≥ PARAM_MAX_COUNT then
      .error (errAt p.previous "Can't have more than 255 arguments.")
    else
      match expressionP p with
      | .error e => .error e
      | .ok p1 =>
        match p1.find .comma with
        | (true, p2) => argLoop expressionP fuel p2 (count + 1)
        | (false, p2) => .ok (count + 1, p2)

/-- The argument list of a call, from `parser.rs` lines 452-469
(`Parser::finish_call`, before the `)` consume): zero arguments when `)`
is next, else the `argLoop` counting from zero. -/
def finishCallArgs (expressionP : ParserSt → Except String ParserSt)
    (fuel : Nat) (p : ParserSt) : Except String (Nat × ParserSt) :=
  if p.check .rightParen then .ok (0, p)
  else argLoop expressionP fuel p 0

/-! ## Supporting lemmas -/

theorem alGet_none_of_not_contains {α : Type} (l : List (String × α)) (k : String)
    (h : alContains l k = false) : alGet l k = none := by
  induction l with
  | nil => rfl
  | cons hd tl ih =>
    obtain ⟨k', v'⟩ := hd
    simp only [alContains, Bool.or_eq_false_iff] at h
    simp only [alGet, h.1, if_false]
    exact ih h.2

/-- Assigning then reading the same name through the same frame yields the
assigned value: `assign` and `get` both stop at the first frame (from the
start outward) that contains the name. -/
theorem env_assign_get : ∀ (e : Env) (name : String) (v : Object) (e' : Env),
    e.assign name v = .ok e' → e'.get name = .ok v
  | .mk vs none, name, v, e', h => by
    simp only [Env.assign] at h
    split at h
    · cases h
      simp [Env.get, alGet_alPut]
    · cases h
  | .mk vs (some parent), name, v, e', h => by
    simp only [Env.assign] at h
    split at h
    · cases h
      simp [Env.get, alGet_alPut]
    · rename_i hc
      rcases hp : parent.assign name v with m | parent'
      · rw [hp] at h; cases h
      · rw [hp] at h
        cases h
        have hrec := env_assign_get parent name v parent' hp
        simp only [Env.get, alGet_none_of_not_contains vs name (by simpa using hc)]
        exact hrec

/-- Assigning then reading at the same distance yields the assigned value. -/
theorem env_assign_at_get_at : ∀ (d : Nat) (e : Env) (name : String) (v : Object) (e' : Env),
    e.assign_at d name v = .ok e' → e'.get_at d name = .ok v
  | 0, e, name, v, e', h => by
    simp only [Env.assign_at, Env.get_at] at *
    exact env_assign_get e name v e' h
  | d + 1, .mk vs (some parent), name, v, e', h => by
    simp only [Env.assign_at] at h
    rcases hp : parent.assign_at d name v with m | parent'
    · rw [hp] at h; cases h
    · rw [hp] at h
      cases h
      simpa [Env.get_at] using env_assign_at_get_at d parent name v parent' hp
  | d + 1, .mk vs none, name, v, e', h => by
    simp only [Env.assign_at] at h
    cases h

/-! ## C1 -/

/-- C1: the claim states that `is_truthy` returns `true` for every `Number`
(including 0) and every `String` (including the empty string).  The code at
`object.rs` lines 16-25 instead returns `false` for `Number(0)` and for the
empty string — the two extra match arms the spec flags as superseded.  The
remaining clauses of the claim (nil and false falsey; true, nonzero
numbers, nonempty strings, functions, classes, instances truthy) do hold. -/
theorem c1_is_truthy_at_zero_and_empty :
    Object.is_truthy (.number 0) = false ∧
    Object.is_truthy (.string "") = false ∧
    Object.is_truthy .nil = false ∧
    Object.is_truthy (.boolean false) = false ∧
    Object.is_truthy (.boolean true) = true ∧
    Object.is_truthy (.number 1) = true ∧
    Object.is_truthy (.string "a") = true ∧
    Object.is_truthy (.function 0) = true ∧
    Object.is_truthy (.classV 0) = true ∧
    Object.is_truthy (.instance 0) = true := by
  refine ⟨rfl, rfl, rfl, rfl, rfl, by decide, rfl, rfl, rfl, rfl⟩

/-! ## C9 -/

/-- A concrete function declaration named `add`, for display theorems. -/
def fnAddDecl : FunctionStmt := .mk ⟨.identifier, "add", .nil, 1⟩ [] []

/-- C9 counterexample: the claim states a user-defined function renders as
`<fn NAME>`; `function.rs` lines 118-122 render `<fun NAME>`, so the
function `add` does not render as `<fn add>`. -/
theorem c9_display_counterexample :
    FnVal.display (.decl fnAddDecl 0 false) = "<fun add>" ∧
    FnVal.display (.decl fnAddDecl 0 false) ≠ "<fn add>" := by
  refine ⟨rfl, by decide⟩

/-- C9 (amended): the textual renderings produced by the code are
`<fun NAME>` for a user-defined function (`function.rs` lines 118-122),
`<builtin-fun clock>` for the built-in clock (`function.rs` lines 47-51),
`<class NAME>` for a class (`class.rs` lines 98-102), and
`<instance of CLASSNAME>` for an instance (`instance.rs` lines 65-69). -/
theorem c9_display_formats (d : FunctionStmt) (closure : Nat) (isInit : Bool)
    (c : ClassV) (s : Store) (iv : InstanceV) (cv : ClassV)
    (h : s.classes[iv.cls]? = some cv) :
    FnVal.display (.decl d closure isInit) = "<fun " ++ d.name.lexeme ++ ">" ∧
    FnVal.display .clock = "<builtin-fun clock>" ∧
    c.display = "<class " ++ c.name.lexeme ++ ">" ∧
    displayInstance s iv = "<instance of " ++ cv.name.lexeme ++ ">" := by
  refine ⟨rfl, rfl, rfl, ?_⟩
  simp [displayInstance, h]

/-- A concrete class named `A`, for display and super theorems. -/
def classA : ClassV := ⟨⟨.identifier, "A", .nil, 1⟩, none, [], []⟩

/-- A store holding only the class `A`. -/
def storeA : Store := ⟨[], [], [classA], []⟩

theorem c9_display_formats_witness :
    storeA.classes[(InstanceV.mk 0 []).cls]? = some classA ∧
    (FnVal.display (.decl fnAddDecl 0 false) = "<fun " ++ fnAddDecl.name.lexeme ++ ">" ∧
     FnVal.display .clock = "<builtin-fun clock>" ∧
     classA.display = "<class " ++ classA.name.lexeme ++ ">" ∧
     displayInstance storeA ⟨0, []⟩ = "<instance of " ++ classA.name.lexeme ++ ">") :=
  ⟨rfl, c9_display_formats fnAddDecl 0 false classA storeA ⟨0, []⟩ classA rfl⟩

/-! ## C3 -/

/-- C3: every call to `execute_block` restores the interpreter's current
environment on every exit path — the `Return` signal path, the runtime
error path, and normal completion (`interpreter.rs` lines 89-116); the
out-of-fuel result (a non-terminating source run has no exit) leaves the
state untouched as well. -/
theorem c3_execute_block_restores_environment (fuel : Nat) (st : InterpState)
    (statements : List Stmt) (environment : Nat) :
    ((execute_block fuel st statements environment).2).environment = st.environment := by
  cases fuel with
  | zero => rfl
  | succ n =>
    unfold execute_block
    rcases h : execStmts n { st with environment := environment } statements with ⟨r, st1⟩
    rcases r with e | _
    · cases e <;> simp [h]
    · simp [h]

/-! ## C7 -/

/-- C7 counterexample: the claim quantifies over *every* name, but for a
name that is nowhere defined `assign_at` reports `Undefined variable` and
leaves the chain unchanged, so the subsequent `get_at` does not return the
assigned value.  Here: a one-frame chain (≥ distance+1 frames for
distance 0), name `x`, value 1. -/
theorem c7_counterexample :
    ((Env.mk [] none).assign_at 0 "x" (.number 1)).bind
        (fun e' => e'.get_at 0 "x") ≠ .ok (Object.number 1) := by
  intro h
  exact Except.noConfusion h

/-- C7 (amended): whenever `assign_at(distance, x, v)` succeeds — that is,
`x` is defined in some frame at or above the frame `distance` hops up, as
is the case for every resolver-recorded variable reference — `get_at`
at the same distance on the updated chain returns `v`
(`environment.rs` lines 51-61 and 80-95). -/
theorem c7_assign_at_then_get_at (e : Env) (distance : Nat) (x : String)
    (v : Object) (e' : Env) (h : e.assign_at distance x v = .ok e') :
    e'.get_at distance x = .ok v :=
  env_assign_at_get_at distance e x v e' h

theorem c7_assign_at_then_get_at_witness :
    (Env.mk [("y", Object.nil)] (some (Env.mk [("x", Object.nil)] none))).assign_at
        1 "x" (.number 2)
      = .ok (Env.mk [("y", Object.nil)] (some (Env.mk [("x", Object.number 2)] none))) ∧
    (Env.mk [("y", Object.nil)] (some (Env.mk [("x", Object.number 2)] none))).get_at
        1 "x" = .ok (Object.number 2) :=
  ⟨rfl,
   c7_assign_at_then_get_at
     (Env.mk [("y", Object.nil)] (some (Env.mk [("x", Object.nil)] none))) 1 "x"
     (Object.number 2)
     (Env.mk [("y", Object.nil)] (some (Env.mk [("x", Object.number 2)] none))) rfl⟩

/-! ## C10 -/

/-- C10: an assignment expression and a property-set expression both
evaluate to `Nil` — not to the assigned value — even though the write takes
effect (`interpreter.rs` lines 214-224 and 293-308 end every successful
path with `Ok(Object::Nil)`). -/
theorem c10_assignment_evaluates_to_nil (fuel : Nat) (st : InterpState) (id id2 : Nat)
    (name : Token) (value obj : HashExpr) (o o2 : Object) (st' st2' : InterpState) :
    (visitExpr fuel st (.mk id (.assign name value)) = (.ok o, st') → o = .nil) ∧
    (visitExpr fuel st (.mk id2 (.set obj name value)) = (.ok o2, st2') → o2 = .nil) := by
  cases fuel with
  | zero => exact ⟨fun h => by simp [visitExpr] at h, fun h => by simp [visitExpr] at h⟩
  | succ n =>
    constructor
    · intro h
      simp only [visitExpr] at h
      rcases hv : visitExpr n st value with ⟨r, st1⟩
      rw [hv] at h
      rcases r with e | v
      · simp [qmark] at h
      · simp only [qmark] at h
        split at h <;> split at h <;> simp_all
    · intro h
      simp only [visitExpr] at h
      rcases ho : visitExpr n st obj with ⟨r, st1⟩
      rw [ho] at h
      rcases r with e | ov
      · simp [qmark] at h
      · simp only [qmark] at h
        split at h
        · rcases hv : visitExpr n st1 value with ⟨r2, st2⟩
          rw [hv] at h
          rcases r2 with e2 | v2
          · simp [qmark] at h
          · simp only [qmark] at h
            split at h <;> simp_all
        · rcases hv : visitExpr n st1 value with ⟨r2, st2⟩
          rw [hv] at h
          rcases r2 with e2 | v2
          · simp [qmark] at h
          · simp only [qmark] at h
            split at h <;> simp_all
        · simp_all

/-- Frequently used concrete tokens for witnesses. -/
def xTok : Token := ⟨.identifier, "x", .nil, 1⟩

def oTok : Token := ⟨.identifier, "o", .nil, 1⟩

def zTok : Token := ⟨.identifier, "zzz", .nil, 1⟩

def slashTok : Token := ⟨.slash, "/", .nil, 1⟩

def orTok : Token := ⟨.or, "or", .nil, 1⟩

def andTok : Token := ⟨.and, "and", .nil, 1⟩

/-- A literal expression with a node id. -/
def litE (id : Nat) (o : Object) : HashExpr := .mk id (.literal o)

/-- A concrete interpreter state: globals define `x` (nil) and `o` (an
instance of `A`). -/
def stC : InterpState :=
  { locals := [], globals := 0, environment := 0,
    store := { envs := [⟨none, [("x", Object.nil), ("o", Object.instance 0)]⟩],
               funs := [], classes := [classA], insts := [⟨0, []⟩] },
    output := [], clockTime := 0 }

theorem c10_assignment_evaluates_to_nil_witness :
    (visitExpr 2 stC (.mk 1 (.assign xTok (litE 2 (.number 2))))).1 = .ok Object.nil ∧
    ((visitExpr 2 stC (.mk 1 (.assign xTok (litE 2 (.number 2))))).2.store.envGet 0 "x"
      = .ok (Object.number 2)) ∧
    (visitExpr 2 stC (.mk 3 (.set (.mk 4 (.variable oTok)) xTok (litE 2 (.number 2))))).1
      = .ok Object.nil ∧
    Object.nil = Object.nil ∧ Object.nil = Object.nil :=
  ⟨rfl, rfl, rfl,
   (c10_assignment_evaluates_to_nil 2 stC 1 3 xTok (litE 2 (.number 2))
      (.mk 4 (.variable oTok)) Object.nil Object.nil
      (visitExpr 2 stC (.mk 1 (.assign xTok (litE 2 (.number 2))))).2
      (visitExpr 2 stC (.mk 3 (.set (.mk 4 (.variable oTok)) xTok (litE 2 (.number 2))))).2).1
     rfl,
   (c10_assignment_evaluates_to_nil 2 stC 1 3 xTok (litE 2 (.number 2))
      (.mk 4 (.variable oTok)) Object.nil Object.nil
      (visitExpr 2 stC (.mk 1 (.assign xTok (litE 2 (.number 2))))).2
      (visitExpr 2 stC (.mk 3 (.set (.mk 4 (.variable oTok)) xTok (litE 2 (.number 2))))).2).2
     rfl⟩

/-! ## C4 -/

/-- C4: logical `or` with a truthy left operand returns the left operand's
value without evaluating the right operand (the result is independent of
`r`, and the state is exactly the state after the left evaluation); with a
falsey left operand it evaluates to whatever the right operand evaluates
to.  Dually for `and`.  The result is always an operand value, never a
coerced boolean (`interpreter.rs` lines 225-245). -/
theorem c4_logical_short_circuit (fuel : Nat) (st st1 : InterpState) (idO idA : Nat)
    (l r : HashExpr) (opOr opAnd : Token) (v : Object)
    (hOr : opOr.token_type = .or) (hAnd : opAnd.token_type = .and)
    (h : visitExpr fuel st l = (.ok v, st1)) :
    (v.is_truthy = true →
      visitExpr (fuel + 1) st (.mk idO (.logical l opOr r)) = (.ok v, st1)) ∧
    (v.is_truthy = false →
      visitExpr (fuel + 1) st (.mk idO (.logical l opOr r)) = visitExpr fuel st1 r) ∧
    (v.is_truthy = false →
      visitExpr (fuel + 1) st (.mk idA (.logical l opAnd r)) = (.ok v, st1)) ∧
    (v.is_truthy = true →
      visitExpr (fuel + 1) st (.mk idA (.logical l opAnd r)) = visitExpr fuel st1 r) := by
  refine ⟨fun ht => ?_, fun ht => ?_, fun ht => ?_, fun ht => ?_⟩ <;>
    simp only [visitExpr, qmark, h, hOr, hAnd, ht, Bool.not_true, Bool.not_false,
      if_true, if_false] <;> simp

theorem c4_logical_short_circuit_witness :
    visitExpr 2 stC (.mk 10 (.logical (litE 11 (.number 1)) orTok (.mk 12 (.variable zTok))))
      = (.ok (.number 1), stC) ∧
    visitExpr 2 stC (.mk 13 (.logical (litE 14 Object.nil) andTok (.mk 15 (.variable zTok))))
      = (.ok Object.nil, stC) :=
  ⟨(c4_logical_short_circuit 1 stC stC 10 10 (litE 11 (.number 1)) (.mk 12 (.variable zTok))
      orTok andTok (.number 1) rfl rfl rfl).1 (by decide),
   (c4_logical_short_circuit 1 stC stC 13 13 (litE 14 Object.nil) (.mk 15 (.variable zTok))
      orTok andTok Object.nil rfl rfl rfl).2.2.1 rfl⟩

/-! ## C5 -/

/-- C5: a binary `/` whose operands evaluate to numbers errors with
*Division by zero* when the divisor equals `0.0` and otherwise yields the
quotient; when either operand is not a number it errors with the two-number
type error (`interpreter.rs` lines 160-172). -/
theorem c5_slash_division (fuel : Nat) (st st1 st2 : InterpState) (id : Nat)
    (l r : HashExpr) (op : Token) (lv rv : Object)
    (hop : op.token_type = .slash)
    (hl : visitExpr fuel st l = (.ok lv, st1))
    (hr : visitExpr fuel st1 r = (.ok rv, st2)) :
    (∀ a b : ℚ, lv = .number a → rv = .number b → b = 0 →
      visitExpr (fuel + 1) st (.mk id (.binary l op r))
        = (.error (.error (errAt op "Division by zero.")), st2)) ∧
    (∀ a b : ℚ, lv = .number a → rv = .number b → b ≠ 0 →
      visitExpr (fuel + 1) st (.mk id (.binary l op r))
        = (.ok (.number (a / b)), st2)) ∧
    ((∀ a b : ℚ, ¬(lv = .number a ∧ rv = .number b)) →
      visitExpr (fuel + 1) st (.mk id (.binary l op r))
        = (.error (.error (errAt op "Operators must be two numbers.")), st2)) := by
  refine ⟨?_, ?_, ?_⟩
  · rintro a b rfl rfl hb
    simp only [visitExpr, qmark, hl, hr, liftErr, evalBinaryOp, hop, if_pos hb]
  · rintro a b rfl rfl hb
    simp only [visitExpr, qmark, hl, hr, liftErr, evalBinaryOp, hop, if_neg hb]
  · intro hnn
    simp only [visitExpr, qmark, hl, hr, liftErr, evalBinaryOp, hop]
    cases lv <;> cases rv <;> first
      | rfl
      | (rename_i a b; exact absurd ⟨rfl, rfl⟩ (hnn a b))

theorem c5_slash_division_witness :
    visitExpr 2 stC (.mk 20 (.binary (litE 21 (.number 6)) slashTok (litE 22 (.number 3))))
      = (.ok (.number 2), stC) ∧
    visitExpr 2 stC (.mk 23 (.binary (litE 24 (.number 6)) slashTok (litE 25 (.number 0))))
      = (.error (.error (errAt slashTok "Division by zero.")), stC) ∧
    visitExpr 2 stC (.mk 26 (.binary (litE 27 (.string "a")) slashTok (litE 28 (.number 3))))
      = (.error (.error (errAt slashTok "Operators must be two numbers.")), stC) :=
  ⟨by
     have h := (c5_slash_division 1 stC stC stC 20 (litE 21 (.number 6)) (litE 22 (.number 3))
       slashTok (.number 6) (.number 3) rfl rfl rfl).2.1 6 3 rfl rfl (by norm_num)
     have h2 : (6 : ℚ) / 3 = 2 := by norm_num
     rw [h2] at h
     exact h,
   (c5_slash_division 1 stC stC stC 23 (litE 24 (.number 6)) (litE 25 (.number 0))
       slashTok (.number 6) (.number 0) rfl rfl rfl).1 6 0 rfl rfl rfl,
   (c5_slash_division 1 stC stC stC 26 (litE 27 (.string "a")) (litE 28 (.number 3))
       slashTok (.string "a") (.number 3) rfl rfl rfl).2.2
     (by rintro a b ⟨h1, h2⟩; cases h1)⟩

/-! ## C6 -/

/-- Argument-count bound of `finishCallArgs` for any sub-parser: the `>=`
check of `parser.rs` lines 452-469 refuses a 256th argument, so a
successful parse carries at most 255. -/
theorem argLoop_le (expressionP : ParserSt → Except String ParserSt) :
    ∀ (fuel : Nat) (p : ParserSt) (count n : Nat) (p' : ParserSt),
      argLoop expressionP fuel p count = .ok (n, p') → n ≤ 255
  | 0, _, _, _, _, h => by simp [argLoop] at h
  | fuel + 1, p, count, n, p', h => by
    simp only [argLoop] at h
    split at h
    · cases h
    · rename_i hlt
      rcases he : expressionP p with e | p1
      · simp [he] at h
      · simp only [he] at h
        rcases hf : p1.find .comma with ⟨b, p2⟩
        rw [hf] at h
        cases b
        · have h' : (Except.ok (count + 1, p2) : Except String (Nat × ParserSt))
              = .ok (n, p') := h
          cases h'
          simp only [PARAM_MAX_COUNT, not_le] at hlt
          omega
        · exact argLoop_le expressionP fuel p2 (count + 1) n p' h

/-- A generic identifier token, for parser inputs. -/
def identTok (s : String) : Token := ⟨.identifier, s, .nil, 1⟩

/-- A comma token. -/
def commaTok : Token := ⟨.comma, ",", .nil, 1⟩

/-- A right-parenthesis token. -/
def rparenTok : Token := ⟨.rightParen, ")", .nil, 1⟩

/-- A number token. -/
def numTok : Token := ⟨.number, "1", .number 1, 1⟩

/-- `n` identifier tokens separated by commas. -/
def sepIdents : Nat → List Token
  | 0 => []
  | 1 => [identTok "p"]
  | n + 2 => identTok "p" :: commaTok :: sepIdents (n + 1)

/-- A sub-parser standing for `self.expression()`: consume one number
token. -/
def exprNum (p : ParserSt) : Except String ParserSt :=
  match p.consume .number "Expect expression." with
  | .ok (_, p1) => .ok p1
  | .error e => .error e

theorem peek_of_drop (p : ParserSt) (t : Token) (rest : List Token)
    (h : p.tokens.drop p.current = t :: rest) : p.peek = some t := by
  show p.tokens[p.current]? = some t
  rw [← List.head?_drop, h, List.head?_cons]

theorem advance_of_drop (p : ParserSt) (t : Token) (rest : List Token)
    (h : p.tokens.drop p.current = t :: rest) (ht : t.token_type ≠ .eof) :
    p.advance = (t, { p with current := p.current + 1 }) := by
  have hp := peek_of_drop p t rest h
  have hend : p.is_at_end = false := by
    unfold ParserSt.is_at_end
    rw [hp]
    simpa using ht
  have hp' : p.tokens[p.current]? = some t := hp
  unfold ParserSt.advance
  rw [hend]
  simp only [Bool.false_eq_true, if_false, ParserSt.previous, Nat.add_sub_cancel, hp']

theorem drop_of_advanced (p : ParserSt) (t : Token) (rest : List Token)
    (h : p.tokens.drop p.current = t :: rest) :
    p.tokens.drop (p.current + 1) = rest := by
  rw [← List.tail_drop, h, List.tail_cons]

theorem consume_of_drop (p : ParserSt) (t : Token) (rest : List Token) (tt : TokenType)
    (msg : String) (h : p.tokens.drop p.current = t :: rest) (htt : t.token_type = tt)
    (hne : tt ≠ .eof) :
    p.consume tt msg = .ok (t, { p with current := p.current + 1 }) := by
  have hp := peek_of_drop p t rest h
  have hc : p.check tt = true := by
    unfold ParserSt.check
    rw [hp]
    simp [htt]
  unfold ParserSt.consume
  rw [hc, advance_of_drop p t rest h (htt ▸ hne)]
  simp

theorem find_pos_of_drop (p : ParserSt) (t : Token) (rest : List Token) (tt : TokenType)
    (h : p.tokens.drop p.current = t :: rest) (htt : t.token_type = tt) (hne : tt ≠ .eof) :
    p.find tt = (true, { p with current := p.current + 1 }) := by
  have hp := peek_of_drop p t rest h
  have hc : p.check tt = true := by
    unfold ParserSt.check
    rw [hp]
    simp [htt]
  unfold ParserSt.find
  rw [hc, advance_of_drop p t rest h (htt ▸ hne)]
  simp

theorem find_neg_of_drop (p : ParserSt) (t : Token) (rest : List Token) (tt : TokenType)
    (h : p.tokens.drop p.current = t :: rest) (htt : t.token_type ≠ tt) :
    p.find tt = (false, p) := by
  have hp := peek_of_drop p t rest h
  have hc : p.check tt = false := by
    unfold ParserSt.check
    rw [hp]
    simpa using htt
  unfold ParserSt.find
  rw [hc]
  simp

/-- Success run of the parameter loop: over a stream of `m + 1`
comma-separated identifiers followed by `)`, with enough fuel and the
accumulated parameters no longer than `255 - m`, the loop accepts all
`m + 1` identifiers.  In particular (at `m = 255`, empty accumulator) a
256-parameter list parses successfully. -/
theorem paramLoop_success : ∀ (m fuel : Nat) (p : ParserSt) (acc : List Token),
    p.tokens.drop p.current = sepIdents (m + 1) ++ [rparenTok] →
    m + 1 ≤ fuel → acc.length + m ≤ 255 →
    ∃ p', paramLoop fuel p acc = .ok (acc ++ List.replicate (m + 1) (identTok "p"), p')
  | 0, fuel, p, acc, hdrop, hfuel, hlen => by
    obtain ⟨f, rfl⟩ : ∃ f, fuel = f + 1 := ⟨fuel - 1, by omega⟩
    have hdrop' : p.tokens.drop p.current = identTok "p" :: [rparenTok] := by
      simpa [sepIdents] using hdrop
    have hcons := consume_of_drop p (identTok "p") [rparenTok] .identifier
      "Expect parameter name." hdrop' rfl (by simp)
    have hdrop1 : p.tokens.drop (p.current + 1) = [rparenTok] :=
      drop_of_advanced p (identTok "p") [rparenTok] hdrop'
    have hfind := find_neg_of_drop { p with current := p.current + 1 } rparenTok []
      .comma hdrop1 (by simp [rparenTok])
    refine ⟨{ p with current := p.current + 1 }, ?_⟩
    simp only [paramLoop, PARAM_MAX_COUNT]
    rw [if_neg (by omega)]
    simp only [hcons, hfind]
    simp
  | m + 1, fuel, p, acc, hdrop, hfuel, hlen => by
    obtain ⟨f, rfl⟩ : ∃ f, fuel = f + 1 := ⟨fuel - 1, by omega⟩
    have hdrop' : p.tokens.drop p.current
        = identTok "p" :: (commaTok :: (sepIdents (m + 1) ++ [rparenTok])) := by
      simpa [sepIdents] using hdrop
    have hcons := consume_of_drop p (identTok "p")
      (commaTok :: (sepIdents (m + 1) ++ [rparenTok])) .identifier
      "Expect parameter name." hdrop' rfl (by simp)
    have hdrop1 : p.tokens.drop (p.current + 1)
        = commaTok :: (sepIdents (m + 1) ++ [rparenTok]) :=
      drop_of_advanced p _ _ hdrop'
    have hfind := find_pos_of_drop { p with current := p.current + 1 } commaTok
      (sepIdents (m + 1) ++ [rparenTok]) .comma hdrop1 rfl (by simp)
    have hdrop2 : p.tokens.drop (p.current + 1 + 1)
        = sepIdents (m + 1) ++ [rparenTok] :=
      drop_of_advanced { p with current := p.current + 1 } commaTok _ hdrop1
    obtain ⟨p', hp'⟩ := paramLoop_success m f
      { p with current := p.current + 1 + 1 } (acc ++ [identTok "p"])
      hdrop2 (by omega) (by simp; omega)
    refine ⟨p', ?_⟩
    simp only [paramLoop, PARAM_MAX_COUNT]
    rw [if_neg (by omega)]
    simp only [hcons, hfind]
    rw [hp']
    simp [List.replicate_succ]

/-- Overflow run of the parameter loop: when the accumulated parameters
plus the remaining identifiers reach past the limit (the entry with 256
collected parameters is reached), the loop errors. -/
theorem paramLoop_overflow : ∀ (m fuel : Nat) (p : ParserSt) (acc : List Token),
    p.tokens.drop p.current = sepIdents (m + 1) ++ [rparenTok] →
    m + 1 ≤ fuel → acc.length + m ≥ 256 →
    ∃ msg, paramLoop fuel p acc = .error msg
  | 0, fuel, p, acc, hdrop, hfuel, hlen => by
    obtain ⟨f, rfl⟩ : ∃ f, fuel = f + 1 := ⟨fuel - 1, by omega⟩
    refine ⟨errAt p.previous "Can't have more than 255 arguments.", ?_⟩
    simp only [paramLoop, PARAM_MAX_COUNT]
    rw [if_pos (by omega)]
  | m + 1, fuel, p, acc, hdrop, hfuel, hlen => by
    obtain ⟨f, rfl⟩ : ∃ f, fuel = f + 1 := ⟨fuel - 1, by omega⟩
    by_cases hbig : acc.length > 255
    · refine ⟨errAt p.previous "Can't have more than 255 arguments.", ?_⟩
      simp only [paramLoop, PARAM_MAX_COUNT]
      rw [if_pos hbig]
    · have hdrop' : p.tokens.drop p.current
          = identTok "p" :: (commaTok :: (sepIdents (m + 1) ++ [rparenTok])) := by
        simpa [sepIdents] using hdrop
      have hcons := consume_of_drop p (identTok "p")
        (commaTok :: (sepIdents (m + 1) ++ [rparenTok])) .identifier
        "Expect parameter name." hdrop' rfl (by simp)
      have hdrop1 : p.tokens.drop (p.current + 1)
          = commaTok :: (sepIdents (m + 1) ++ [rparenTok]) :=
        drop_of_advanced p _ _ hdrop'
      have hfind := find_pos_of_drop { p with current := p.current + 1 } commaTok
        (sepIdents (m + 1) ++ [rparenTok]) .comma hdrop1 rfl (by simp)
      have hdrop2 : p.tokens.drop (p.current + 1 + 1)
          = sepIdents (m + 1) ++ [rparenTok] :=
        drop_of_advanced { p with current := p.current + 1 } commaTok _ hdrop1
      obtain ⟨msg, hmsg⟩ := paramLoop_overflow m f
        { p with current := p.current + 1 + 1 } (acc ++ [identTok "p"])
        hdrop2 (by omega) (by simp; omega)
      refine ⟨msg, ?_⟩
      simp only [paramLoop, PARAM_MAX_COUNT]
      rw [if_neg (by omega)]
      simp only [hcons, hfind]
      exact hmsg

/-- C6: the claim says more than 255 parameters is a parse error, but
`Parser::function` checks `parameters.len() > PARAM_MAX_COUNT` (strict, at
the top of each iteration), so a declaration with exactly 256 parameters is
accepted; only 257 or more (past a comma) errors.  The argument loop of
`finish_call` uses `>=` and behaves as claimed: a successful call parse
never carries more than 255 arguments. -/
theorem c6_parameter_limit_off_by_one :
    (∃ p', functionParams 256 ⟨sepIdents 256 ++ [rparenTok], 0⟩
        = .ok (List.replicate 256 (identTok "p"), p')) ∧
    (∃ msg, functionParams 257 ⟨sepIdents 257 ++ [rparenTok], 0⟩ = .error msg) ∧
    (∀ (expressionP : ParserSt → Except String ParserSt) (fuel : Nat) (p : ParserSt)
        (n : Nat) (p' : ParserSt),
      finishCallArgs expressionP fuel p = .ok (n, p') → n ≤ 255) := by
  refine ⟨?_, ?_, ?_⟩
  · have hdrop : (ParserSt.mk (sepIdents 256 ++ [rparenTok]) 0).tokens.drop 0
        = sepIdents (255 + 1) ++ [rparenTok] := by rw [List.drop_zero]
    have hcheck : (ParserSt.mk (sepIdents 256 ++ [rparenTok]) 0).check .rightParen = false := by
      have := peek_of_drop (ParserSt.mk (sepIdents 256 ++ [rparenTok]) 0) (identTok "p")
        (commaTok :: (sepIdents 255 ++ [rparenTok])) (by rw [List.drop_zero]; rfl)
      unfold ParserSt.check
      rw [this]
      simp [identTok]
    obtain ⟨p', hp'⟩ := paramLoop_success 255 256
      (ParserSt.mk (sepIdents 256 ++ [rparenTok]) 0) [] hdrop (by omega) (by simp)
    refine ⟨p', ?_⟩
    unfold functionParams
    rw [hcheck]
    simp only [Bool.false_eq_true, if_false]
    rw [List.nil_append] at hp'
    exact hp'
  · have hdrop : (ParserSt.mk (sepIdents 257 ++ [rparenTok]) 0).tokens.drop 0
        = sepIdents (256 + 1) ++ [rparenTok] := by rw [List.drop_zero]
    have hcheck : (ParserSt.mk (sepIdents 257 ++ [rparenTok]) 0).check .rightParen = false := by
      have := peek_of_drop (ParserSt.mk (sepIdents 257 ++ [rparenTok]) 0) (identTok "p")
        (commaTok :: (sepIdents 256 ++ [rparenTok])) (by rw [List.drop_zero]; rfl)
      unfold ParserSt.check
      rw [this]
      simp [identTok]
    obtain ⟨msg, hmsg⟩ := paramLoop_overflow 256 257
      (ParserSt.mk (sepIdents 257 ++ [rparenTok]) 0) [] hdrop (by omega) (by simp)
    refine ⟨msg, ?_⟩
    unfold functionParams
    rw [hcheck]
    simp only [Bool.false_eq_true, if_false]
    exact hmsg
  · intro expressionP fuel p n p' h
    unfold finishCallArgs at h
    split at h
    · cases h
      omega
    · exact argLoop_le expressionP fuel p 0 n p' h

theorem c6_parameter_limit_off_by_one_witness :
    (1 : Nat) ≤ 255 ∧
    finishCallArgs exprNum 2 ⟨[numTok, rparenTok], 0⟩ = .ok (1, ⟨[numTok, rparenTok], 1⟩) :=
  ⟨c6_parameter_limit_off_by_one.2.2 exprNum 2 ⟨[numTok, rparenTok], 0⟩ 1
      ⟨[numTok, rparenTok], 1⟩ rfl,
   rfl⟩

/-! ## C2 -/

/-- C2: evaluating `super.method` looks up `super` at the recorded
distance and `this` at distance-1, walks the superclass chain via
`find_method` (`class.rs` lines 106-118), and returns the method bound to
`this` (`function.rs` `bind`); a missing method is the `Undefined property`
error.  The evaluation clause itself is spec-modelled (`visitSuper`), since
this snapshot's `visit_expr` lacks the `Expr::Super` arm. -/
theorem c2_super_method_binding (fuel : Nat) (st : InterpState) (id distance : Nat)
    (keyword method : Token) (sup inst : Nat)
    (hd : lookupLocals st.locals id = some distance)
    (hs : st.store.envGetAt distance st.environment "super" = .ok (.classV sup))
    (ht : st.store.envGetAt (distance - 1) st.environment "this" = .ok (.instance inst)) :
    (∀ d c ii, find_method st.store (st.store.classes.length + 1) sup method.lexeme
        = some (.decl d c ii) →
      visitExpr (fuel + 1) st (.mk id (.superE keyword method))
        = (.ok (.function (fnBindDecl st.store d c ii inst).1),
           { st with store := (fnBindDecl st.store d c ii inst).2 })) ∧
    (find_method st.store (st.store.classes.length + 1) sup method.lexeme = none →
      visitExpr (fuel + 1) st (.mk id (.superE keyword method))
        = (.error (.error ("Undefined property `" ++ method.lexeme ++ "`.")), st)) := by
  constructor
  · intro d c ii hf
    simp only [visitExpr, visitSuper, hd, hs, ht, hf, fnBind]
  · intro hf
    simp only [visitExpr, visitSuper, hd, hs, ht, hf]

/-- The method `greet` of the concrete superclass below. -/
def greetDecl : FunctionStmt := .mk ⟨.identifier, "greet", .nil, 1⟩ [] []

/-- A concrete state for the super lookup: class `A` (index 0) defines
`greet`; class `B` (index 1) has superclass `A`; instance 0 is a `B`; the
environment chain is global ← `super` frame ← `this` frame ← current, so
`super` sits at distance 2 and `this` at distance 1; the locals map records
distance 2 for the `super.greet` node (id 42). -/
def stSuper : InterpState :=
  { locals := [(42, 2)], globals := 0, environment := 3,
    store := { envs := [⟨none, []⟩,
                        ⟨some 0, [("super", Object.classV 0)]⟩,
                        ⟨some 1, [("this", Object.instance 0)]⟩,
                        ⟨some 2, []⟩],
               funs := [],
               classes := [⟨⟨.identifier, "A", .nil, 1⟩, none,
                            [("greet", .decl greetDecl 0 false)], []⟩,
                           ⟨⟨.identifier, "B", .nil, 1⟩, some 0, [], []⟩],
               insts := [⟨1, []⟩] },
    output := [], clockTime := 0 }

theorem c2_super_method_binding_witness :
    visitExpr 1 stSuper (.mk 42 (.superE ⟨.superT, "super", .nil, 1⟩
        ⟨.identifier, "greet", .nil, 1⟩))
      = (.ok (.function (fnBindDecl stSuper.store greetDecl 0 false 0).1),
         { stSuper with store := (fnBindDecl stSuper.store greetDecl 0 false 0).2 }) :=
  (c2_super_method_binding 0 stSuper 42 2 ⟨.superT, "super", .nil, 1⟩
      ⟨.identifier, "greet", .nil, 1⟩ 0 0 rfl rfl rfl).1 greetDecl 0 false rfl

/-! ## C8: the `Return` signal never escapes the top-level driver -/

/-- Whether a result is the `Return` signal. -/
def isRet {α : Type} : Except InterpretError α → Bool
  | .error (.ret _) => true
  | _ => false

/-- A statement that can propagate a `Return` signal out of
`Interpreter::execute`: a `return` itself, or one reachable through `if` /
`while` (which execute branches directly).  A `Block` never propagates one
(`execute_block` converts the signal), nor do declarations or expression
statements. -/
def hasNakedReturn : Stmt → Bool
  | .returnS _ _ => true
  | .ifS _ t none => hasNakedReturn t
  | .ifS _ t (some e) => hasNakedReturn t || hasNakedReturn e
  | .whileS _ b => hasNakedReturn b
  | _ => false

theorem isRet_qmark_false {α β : Type} (r : Except InterpretError α × InterpState)
    (f : α → InterpState → Except InterpretError β × InterpState)
    (hr : isRet r.1 = false) (hf : ∀ a st, isRet (f a st).1 = false) :
    isRet (qmark r f).1 = false := by
  rcases r with ⟨x, st⟩
  cases x with
  | ok a => exact hf a st
  | error e =>
    cases e with
    | error m => rfl
    | ret v => simp [isRet] at hr

theorem isRet_qmark_elim {α β : Type} (r : Except InterpretError α × InterpState)
    (f : α → InterpState → Except InterpretError β × InterpState)
    (h : isRet (qmark r f).1 = true) :
    isRet r.1 = true ∨ ∃ a st', r = (.ok a, st') ∧ isRet (f a st').1 = true := by
  rcases r with ⟨x, st⟩
  cases x with
  | ok a => exact Or.inr ⟨a, st, rfl, h⟩
  | error e =>
    cases e with
    | error m => simp [qmark, isRet] at h
    | ret v => exact Or.inl rfl

theorem isRet_liftErr_false {α : Type} (st : InterpState) (r : Except String α)
    (f : α → Except InterpretError Object × InterpState)
    (hf : ∀ a, isRet (f a).1 = false) : isRet (liftErr st r f).1 = false := by
  cases r with
  | ok a => exact hf a
  | error m => rfl

theorem visitSuper_noRet (st : InterpState) (id : Nat) (method : Token) :
    isRet (visitSuper st id method).1 = false := by
  unfold visitSuper
  repeat' split
  all_goals rfl

/-- No evaluator component ever produces the `Return` signal except a
statement with a naked `return` in it: expressions never do (calls pass
through `execute_block`, which converts the signal), `execute_block`,
function calls and class calls never do, and a statement only does when a
`return` is reachable outside any nested block or function body. -/
theorem noRetAll : ∀ fuel : Nat,
    (∀ st e, isRet (visitExpr fuel st e).1 = false) ∧
    (∀ st es, isRet (evalArgs fuel st es).1 = false) ∧
    (∀ st s, isRet (visitStmt fuel st s).1 = true → hasNakedReturn s = true) ∧
    (∀ st ss env, isRet (execute_block fuel st ss env).1 = false) ∧
    (∀ st f args, isRet (fnCall fuel st f args).1 = false) ∧
    (∀ st ci args, isRet (classCall fuel st ci args).1 = false) := by
  intro fuel
  induction fuel with
  | zero =>
    refine ⟨fun st e => rfl, fun st es => rfl, fun st s h => ?_, fun st ss env => rfl,
      fun st f args => rfl, fun st ci args => rfl⟩
    simp [visitStmt, isRet] at h
  | succ n ih =>
    obtain ⟨ihE, ihA, ihS, ihB, ihF, ihC⟩ := ih
    have hE : ∀ st e, isRet (visitExpr (n + 1) st e).1 = false := by
      intro st e
      obtain ⟨id, ex⟩ := e
      cases ex with
      | literal v => rfl
      | grouping inner => exact ihE st inner
      | unary op right =>
        simp only [visitExpr]
        exact isRet_qmark_false _ _ (ihE st right)
          (fun r st1 => isRet_liftErr_false _ _ _ (fun v => rfl))
      | binary l op r =>
        simp only [visitExpr]
        exact isRet_qmark_false _ _ (ihE st l) (fun lv st1 =>
          isRet_qmark_false _ _ (ihE st1 r) (fun rv st2 =>
            isRet_liftErr_false _ _ _ (fun v => rfl)))
      | «variable» name =>
        simp only [visitExpr]
        exact isRet_liftErr_false _ _ _ (fun v => rfl)
      | assign name value =>
        simp only [visitExpr]
        refine isRet_qmark_false _ _ (ihE st value) (fun v st1 => ?_)
        split
        · split <;> rfl
        · split <;> rfl
      | logical l op r =>
        simp only [visitExpr]
        refine isRet_qmark_false _ _ (ihE st l) (fun lv st1 => ?_)
        split
        · split
          · rfl
          · exact ihE st1 r
        · split
          · rfl
          · exact ihE st1 r
        · rfl
      | call callee paren args =>
        simp only [visitExpr]
        refine isRet_qmark_false _ _ (ihE st callee) (fun cv st1 => ?_)
        refine isRet_qmark_false _ _ (ihA st1 args) (fun argv st2 => ?_)
        split
        · split
          · rfl
          · split
            · rfl
            · exact ihF _ _ _
        · split
          · rfl
          · exact ihC _ _ _
        · rfl
      | get obj name =>
        simp only [visitExpr]
        refine isRet_qmark_false _ _ (ihE st obj) (fun ov st1 => ?_)
        split
        · split <;> rfl
        · exact isRet_liftErr_false _ _ _ (fun v => rfl)
        · rfl
      | set obj name value =>
        simp only [visitExpr]
        refine isRet_qmark_false _ _ (ihE st obj) (fun ov st1 => ?_)
        split
        · refine isRet_qmark_false _ _ (ihE st1 value) (fun v st2 => ?_)
          split <;> rfl
        · refine isRet_qmark_false _ _ (ihE st1 value) (fun v st2 => ?_)
          split <;> rfl
        · rfl
      | this keyword =>
        simp only [visitExpr]
        exact isRet_liftErr_false _ _ _ (fun v => rfl)
      | superE keyword method =>
        simp only [visitExpr]
        exact visitSuper_noRet st id method
    have hA : ∀ st es, isRet (evalArgs (n + 1) st es).1 = false := by
      intro st es
      cases es with
      | nil => rfl
      | cons e rest =>
        simp only [evalArgs]
        exact isRet_qmark_false _ _ (ihE st e) (fun v st1 =>
          isRet_qmark_false _ _ (ihA st1 rest) (fun vs st2 => rfl))
    have hB : ∀ st ss env, isRet (execute_block (n + 1) st ss env).1 = false := by
      intro st ss env
      simp only [execute_block]
      split <;> rfl
    have hF : ∀ st f args, isRet (fnCall (n + 1) st f args).1 = false := by
      intro st f args
      cases f with
      | clock => rfl
      | decl d closure isInit =>
        simp only [fnCall]
        refine isRet_qmark_false _ _ (ihB _ _ _) (fun value st1 => ?_)
        split
        · exact isRet_liftErr_false _ _ _ (fun t => rfl)
        · rfl
    have hC : ∀ st ci args, isRet (classCall (n + 1) st ci args).1 = false := by
      intro st ci args
      simp only [classCall]
      split
      · rfl
      · split
        · rfl
        · split
          · rfl
          · exact isRet_qmark_false _ _ (ihF _ _ _) (fun u st1 => rfl)
    have hS : ∀ st s, isRet (visitStmt (n + 1) st s).1 = true → hasNakedReturn s = true := by
      intro st s h
      cases s with
      | expression e =>
        have hf : isRet (visitStmt (n + 1) st (.expression e)).1 = false := by
          simp only [visitStmt]
          exact isRet_qmark_false _ _ (ihE st e) (fun u st1 => rfl)
        simp [hf] at h
      | print e =>
        have hf : isRet (visitStmt (n + 1) st (.print e)).1 = false := by
          simp only [visitStmt]
          exact isRet_qmark_false _ _ (ihE st e) (fun v st1 => rfl)
        simp [hf] at h
      | var name init =>
        cases init with
        | none => simp [visitStmt, isRet] at h
        | some i =>
          have hf : isRet (visitStmt (n + 1) st (.var name (some i))).1 = false := by
            simp only [visitStmt]
            exact isRet_qmark_false _ _ (ihE st i) (fun v st1 => rfl)
          simp [hf] at h
      | block ss =>
        have hf : isRet (visitStmt (n + 1) st (.block ss)).1 = false := by
          simp only [visitStmt]
          exact isRet_qmark_false _ _ (ihB _ _ _) (fun v st1 => rfl)
        simp [hf] at h
      | ifS c t e =>
        simp only [visitStmt] at h
        rcases isRet_qmark_elim _ _ h with h1 | ⟨cv, st1, _, h2⟩
        · simp [ihE st c] at h1
        · split at h2
          · have ht := ihS st1 t h2
            cases e <;> simp [hasNakedReturn, ht]
          · cases e with
            | none => simp [isRet] at h2
            | some el =>
              simp only at h2
              have hel := ihS st1 el h2
              simp [hasNakedReturn, hel]
      | whileS c body =>
        simp only [visitStmt] at h
        rcases isRet_qmark_elim _ _ h with h1 | ⟨cv, st1, _, h2⟩
        · simp [ihE st c] at h1
        · split at h2
          · rcases isRet_qmark_elim _ _ h2 with h3 | ⟨u, st2, _, h4⟩
            · simpa [hasNakedReturn] using ihS st1 body h3
            · exact ihS st2 (.whileS c body) h4
          · simp [isRet] at h2
      | function d => simp [visitStmt, isRet] at h
      | returnS keyword value => rfl
      | classS name sup methods => simp [visitStmt, isRet] at h
    exact ⟨hE, hA, hS, hB, hF, hC⟩

theorem exbind_ok {α β : Type} (x : Except String α) (f : α → Except String β) (b : β)
    (h : x >>= f = .ok b) : ∃ a, x = .ok a ∧ f a = .ok b := by
  cases x with
  | ok a => exact ⟨a, rfl, h⟩
  | error m => exact absurd h (by simp [Bind.bind, Except.bind])

theorem beginScope_cf (st : RState) : (beginScope st).current_function = st.current_function :=
  rfl

theorem endScope_cf (st : RState) : (endScope st).current_function = st.current_function :=
  rfl

theorem defineR_cf (st : RState) (name : String) :
    (defineR st name).current_function = st.current_function := by
  unfold defineR
  split <;> rfl

theorem resolveLocal_cf (st : RState) (id : Nat) (name : String) :
    (resolveLocal st id name).current_function = st.current_function := by
  unfold resolveLocal
  split <;> rfl

theorem declare_cf (st : RState) (name : Token) (st' : RState)
    (h : declare st name = .ok st') : st'.current_function = st.current_function := by
  unfold declare at h
  split at h
  · cases h; rfl
  · split at h
    · cases h
    · cases h; rfl

/-- The resolver never changes `current_function` across a successful
visit: `resolve_fun` switches it for the nested traversal but restores the
enclosing value before returning. -/
theorem resolvePreservesCF : ∀ fuel : Nat,
    (∀ st e st', resolveExpr fuel st e = .ok st' →
      st'.current_function = st.current_function) ∧
    (∀ st es st', resolveExprs fuel st es = .ok st' →
      st'.current_function = st.current_function) ∧
    (∀ st s st', resolveStmt fuel st s = .ok st' →
      st'.current_function = st.current_function) ∧
    (∀ st ss st', resolveStmts fuel st ss = .ok st' →
      st'.current_function = st.current_function) ∧
    (∀ st ms st', resolveMethods fuel st ms = .ok st' →
      st'.current_function = st.current_function) ∧
    (∀ st d ty st', resolveFun fuel st d ty = .ok st' →
      st'.current_function = st.current_function) ∧
    (∀ st ps st', resolveParams fuel st ps = .ok st' →
      st'.current_function = st.current_function) := by
  intro fuel
  induction fuel with
  | zero =>
    refine ⟨fun st e st' h => ?_, fun st es st' h => ?_, fun st s st' h => ?_,
      fun st ss st' h => ?_, fun st ms st' h => ?_, fun st d ty st' h => ?_,
      fun st ps st' h => ?_⟩ <;> cases h
  | succ n ih =>
    obtain ⟨ihE, ihA, ihS, ihSS, ihM, ihF, ihP⟩ := ih
    have hE : ∀ st e st', resolveExpr (n + 1) st e = .ok st' →
        st'.current_function = st.current_function := by
      intro st e st' h
      obtain ⟨id, ex⟩ := e
      rcases ex with v | inner | ⟨op, right⟩ | ⟨l, op, r⟩ | name | ⟨name, value⟩
        | ⟨l, op, r⟩ | ⟨callee, paren, args⟩ | ⟨obj, gname⟩ | ⟨obj, sname, value⟩
        | kw | ⟨kw, method⟩
      · cases h; rfl
      · exact ihE st inner st' h
      · exact ihE st right st' h
      · simp only [resolveExpr] at h
        obtain ⟨st1, h1, h2⟩ := exbind_ok _ _ _ h
        exact (ihE st1 r st' h2).trans (ihE st l st1 h1)
      · simp only [resolveExpr] at h
        split at h
        · split at h
          · cases h
          · cases h; exact resolveLocal_cf _ _ _
        · cases h; exact resolveLocal_cf _ _ _
      · simp only [resolveExpr] at h
        obtain ⟨st1, h1, h2⟩ := exbind_ok _ _ _ h
        cases h2
        exact (resolveLocal_cf _ _ _).trans (ihE st value st1 h1)
      · simp only [resolveExpr] at h
        obtain ⟨st1, h1, h2⟩ := exbind_ok _ _ _ h
        exact (ihE st1 r st' h2).trans (ihE st l st1 h1)
      · simp only [resolveExpr] at h
        obtain ⟨st1, h1, h2⟩ := exbind_ok _ _ _ h
        exact (ihA st1 args st' h2).trans (ihE st callee st1 h1)
      · exact ihE st obj st' h
      · simp only [resolveExpr] at h
        obtain ⟨st1, h1, h2⟩ := exbind_ok _ _ _ h
        exact (ihE st1 obj st' h2).trans (ihE st value st1 h1)
      · simp only [resolveExpr] at h
        split at h
        · cases h
        · cases h; exact resolveLocal_cf _ _ _
      · simp only [resolveExpr] at h
        split at h
        · cases h
        · split at h
          · cases h
          · cases h; exact resolveLocal_cf _ _ _
    have hA : ∀ st es st', resolveExprs (n + 1) st es = .ok st' →
        st'.current_function = st.current_function := by
      intro st es st' h
      cases es with
      | nil => cases h; rfl
      | cons e rest =>
        simp only [resolveExprs] at h
        obtain ⟨st1, h1, h2⟩ := exbind_ok _ _ _ h
        exact (ihA st1 rest st' h2).trans (ihE st e st1 h1)
    have hP : ∀ st ps st', resolveParams (n + 1) st ps = .ok st' →
        st'.current_function = st.current_function := by
      intro st ps st' h
      cases ps with
      | nil => cases h; rfl
      | cons p rest =>
        simp only [resolveParams] at h
        obtain ⟨st1, h1, h2⟩ := exbind_ok _ _ _ h
        exact (ihP _ rest st' h2).trans ((defineR_cf st1 p.lexeme).trans
          (declare_cf st p st1 h1))
    have hF : ∀ st d ty st', resolveFun (n + 1) st d ty = .ok st' →
        st'.current_function = st.current_function := by
      intro st d ty st' h
      simp only [resolveFun] at h
      obtain ⟨st1, h1, h2⟩ := exbind_ok _ _ _ h
      obtain ⟨st2, h3, h4⟩ := exbind_ok _ _ _ h2
      cases h4
      rfl
    have hM : ∀ st ms st', resolveMethods (n + 1) st ms = .ok st' →
        st'.current_function = st.current_function := by
      intro st ms st' h
      cases ms with
      | nil => cases h; rfl
      | cons m rest =>
        simp only [resolveMethods] at h
        obtain ⟨st1, h1, h2⟩ := exbind_ok _ _ _ h
        exact (ihM st1 rest st' h2).trans (ihF st m _ st1 h1)
    have hS : ∀ st s st', resolveStmt (n + 1) st s = .ok st' →
        st'.current_function = st.current_function := by
      intro st s st' h
      cases s with
      | whileS c body =>
        simp only [resolveStmt] at h
        obtain ⟨st1, h1, h2⟩ := exbind_ok _ _ _ h
        exact (ihS st1 body st' h2).trans (ihE st c st1 h1)
      | returnS keyword value =>
        simp only [resolveStmt] at h
        split at h
        · cases h
        · split at h
          · split at h
            · exact ihE st _ st' h
            · split at h
              · cases h
              · exact ihE st _ st' h
          · cases h; rfl
      | expression e => exact ihE st e st' h
      | print e => exact ihE st e st' h
      | ifS c t e =>
        simp only [resolveStmt] at h
        obtain ⟨st1, h1, h2⟩ := exbind_ok _ _ _ h
        obtain ⟨st2, h3, h4⟩ := exbind_ok _ _ _ h2
        have h5 : st'.current_function = st2.current_function := by
          split at h4
          · exact ihS st2 _ st' h4
          · cases h4; rfl
        exact h5.trans ((ihS st1 t st2 h3).trans (ihE st c st1 h1))
      | function d =>
        simp only [resolveStmt] at h
        obtain ⟨st1, h1, h2⟩ := exbind_ok _ _ _ h
        exact (ihF _ d _ st' h2).trans ((defineR_cf st1 d.name.lexeme).trans
          (declare_cf st d.name st1 h1))
      | var name init =>
        simp only [resolveStmt] at h
        obtain ⟨st1, h1, h2⟩ := exbind_ok _ _ _ h
        split at h2
        · obtain ⟨st2, h3, h4⟩ := exbind_ok _ _ _ h2
          cases h4
          exact (defineR_cf st2 name.lexeme).trans
            ((ihE st1 _ st2 h3).trans (declare_cf st name st1 h1))
        · obtain ⟨st2, h3, h4⟩ := exbind_ok _ _ _ h2
          cases h3
          cases h4
          exact (defineR_cf st1 name.lexeme).trans (declare_cf st name st1 h1)
      | block ss =>
        simp only [resolveStmt] at h
        obtain ⟨st1, h1, h2⟩ := exbind_ok _ _ _ h
        cases h2
        exact (endScope_cf st1).trans ((ihSS _ ss st1 h1).trans (beginScope_cf st))
      | classS name sup methods =>
        simp only [resolveStmt] at h
        obtain ⟨st1, h1, h2⟩ := exbind_ok _ _ _ h
        have e1 : st1.current_function = st.current_function :=
          declare_cf { st with current_class := .classC } name st1 h1
        split at h2
        · split at h2
          · split at h2
            · exact absurd h2 (by simp [Bind.bind, Except.bind])
            · obtain ⟨u, hu, h2⟩ := exbind_ok _ _ _ h2
              obtain ⟨st9, h3, h2⟩ := exbind_ok _ _ _ h2
              obtain ⟨y, hy, h2⟩ := exbind_ok _ _ _ h2
              obtain ⟨stm, hm, h2⟩ := exbind_ok _ _ _ h2
              cases h2
              cases hy
              have e2 : st9.current_function = st1.current_function :=
                ihE { st1 with current_class := .subclassC } _ st9 h3
              have e3 : stm.current_function = st9.current_function := by
                simpa [defineR_cf, beginScope_cf] using ihM _ methods stm hm
              simp [defineR_cf, endScope_cf, e3, e2, e1]
          · obtain ⟨u, hu, h2⟩ := exbind_ok _ _ _ h2
            obtain ⟨st9, h3, h2⟩ := exbind_ok _ _ _ h2
            obtain ⟨y, hy, h2⟩ := exbind_ok _ _ _ h2
            obtain ⟨stm, hm, h2⟩ := exbind_ok _ _ _ h2
            cases h2
            cases hy
            have e2 : st9.current_function = st1.current_function :=
              ihE { st1 with current_class := .subclassC } _ st9 h3
            have e3 : stm.current_function = st9.current_function := by
              simpa [defineR_cf, beginScope_cf] using ihM _ methods stm hm
            simp [defineR_cf, endScope_cf, e3, e2, e1]
        · obtain ⟨y, hy, h2⟩ := exbind_ok _ _ _ h2
          obtain ⟨stm, hm, h2⟩ := exbind_ok _ _ _ h2
          cases h2
          cases hy
          have e3 : stm.current_function = st1.current_function := by
            simpa [defineR_cf, beginScope_cf] using ihM _ methods stm hm
          simp [defineR_cf, endScope_cf, e3, e1]
    have hSS : ∀ st ss st', resolveStmts (n + 1) st ss = .ok st' →
        st'.current_function = st.current_function := by
      intro st ss st' h
      cases ss with
      | nil => cases h; rfl
      | cons s rest =>
        simp only [resolveStmts] at h
        obtain ⟨st1, h1, h2⟩ := exbind_ok _ _ _ h
        exact (ihSS st1 rest st' h2).trans (ihS st s st1 h1)
    exact ⟨hE, hA, hS, hSS, hM, hF, hP⟩

/-- A resolver-accepted statement in top-level context
(`current_function = None`) has no naked `return`: the resolver rejects
`return` outside of a function (`resolver.rs` lines 212-218), and
`if`/`while` branches are resolved in the same context. -/
theorem resolveNoNaked : ∀ fuel : Nat,
    (∀ st s st', resolveStmt fuel st s = .ok st' →
      st.current_function = .noneF → hasNakedReturn s = false) ∧
    (∀ st ss st', resolveStmts fuel st ss = .ok st' →
      st.current_function = .noneF → ∀ s ∈ ss, hasNakedReturn s = false) := by
  intro fuel
  induction fuel with
  | zero =>
    constructor
    · intro st s st' h
      cases h
    · intro st ss st' h
      cases h
  | succ n ih =>
    obtain ⟨ihS, ihSS⟩ := ih
    constructor
    · intro st s st' h hcf
      cases s with
      | returnS keyword value => simp [resolveStmt, hcf] at h
      | ifS c t e =>
        simp only [resolveStmt] at h
        obtain ⟨st1, h1, h2⟩ := exbind_ok _ _ _ h
        obtain ⟨st2, h3, h4⟩ := exbind_ok _ _ _ h2
        have hcf1 : st1.current_function = .noneF :=
          ((resolvePreservesCF n).1 st c st1 h1).trans hcf
        have hcf2 : st2.current_function = .noneF :=
          ((resolvePreservesCF n).2.2.1 st1 t st2 h3).trans hcf1
        have ht : hasNakedReturn t = false := ihS st1 t st2 h3 hcf1
        cases e with
        | none => simpa [hasNakedReturn] using ht
        | some el =>
          have hel : hasNakedReturn el = false := ihS st2 el st' h4 hcf2
          simp [hasNakedReturn, ht, hel]
      | whileS c body =>
        simp only [resolveStmt] at h
        obtain ⟨st1, h1, h2⟩ := exbind_ok _ _ _ h
        have hcf1 : st1.current_function = .noneF :=
          ((resolvePreservesCF n).1 st c st1 h1).trans hcf
        simpa [hasNakedReturn] using ihS st1 body st' h2 hcf1
      | expression e => rfl
      | print e => rfl
      | var name init => rfl
      | block ss => rfl
      | function d => rfl
      | classS name sup methods => rfl
    · intro st ss st' h hcf s hs
      cases ss with
      | nil => cases hs
      | cons s0 rest =>
        simp only [resolveStmts] at h
        obtain ⟨st1, h1, h2⟩ := exbind_ok _ _ _ h
        rcases List.mem_cons.mp hs with rfl | hs'
        · exact ihS st s st1 h1 hcf
        · have hcf1 : st1.current_function = .noneF :=
            ((resolvePreservesCF n).2.2.1 st s0 st1 h1).trans hcf
          exact ihSS st1 rest st' h2 hcf1 s hs'

/-- The driver loop of `interpret` never hits its `Return` panic when no
top-level statement carries a naked `return`. -/
theorem driverLoop_no_retPanic : ∀ (ss : List Stmt) (fuel : Nat) (st : InterpState),
    (∀ s ∈ ss, hasNakedReturn s = false) → driverLoop fuel st ss ≠ .retPanic
  | [], fuel, st, hss => by simp [driverLoop]
  | s :: rest, fuel, st, hss => by
    unfold driverLoop
    rcases hv : visitStmt fuel st s with ⟨r, st1⟩
    rcases r with e | u
    · cases e with
      | ret v =>
        exfalso
        have hNak := (noRetAll fuel).2.2.1 st s (by rw [hv]; rfl)
        simp [hss s (List.mem_cons_self s rest)] at hNak
      | error m => simp
    · exact driverLoop_no_retPanic rest fuel st1
        (fun s' hs' => hss s' (List.mem_cons_of_mem s hs'))

/-- C8: the `Return` signal can never escape past `interpret`'s top-level
statement driver: the driver's `panic!("Unreachable error!")` branch is
unreachable for every program (a resolver error panics before execution,
and an accepted program has no `return` outside function bodies, while
`execute_block` converts every `Return` signal arising inside a call or a
block).  This holds for any fuel, clock value and statement list. -/
theorem c8_return_never_escapes (rfuel fuel : Nat) (clockTime : ℚ)
    (statements : List Stmt) :
    interpret rfuel fuel clockTime statements ≠ .retPanic := by
  unfold interpret
  rcases hr : resolveProgram rfuel statements with m | rst
  · simp
  · have hok : ∀ s ∈ statements, hasNakedReturn s = false := by
      unfold resolveProgram at hr
      obtain ⟨st1, h1, h2⟩ := exbind_ok _ _ _ hr
      exact fun s hs =>
        (resolveNoNaked rfuel).2 (beginScope ⟨[], [], .noneF, .noneC⟩) statements st1
          h1 rfl s hs
    exact driverLoop_no_retPanic statements fuel (initState rst.locals clockTime) hok
